import Mathlib

/-!
# Verification of the FileOps MCP server (`fileops_server.py`)

A shallow embedding of the path-sandboxing and request-dispatch logic of
`src/fileops_server.py` together with proofs about the claims of the
specification.

Modelling conventions:

* Strings are Lean `String`s; the character-level functions below operate on
  `String.data : List Char` so that all path manipulation is done by plain
  structural recursion.
* The POSIX path helpers used by the server (`str.lstrip("/")`,
  `os.path.join`, `os.path.normpath`, `os.path.dirname`, `os.path.relpath`,
  `glob.glob`, `fnmatch`) are embedded faithfully from their documented
  CPython semantics, since the server calls them directly.
* The filesystem is modelled as a finite association list from absolute
  paths (lists of path components) to entries (regular files with a string
  content, or directories).  The root directory `/` (the empty component
  list) always exists and is a directory.
* Reading a file in text mode applies Python's universal-newline decoding
  (`"\r\n"` and `"\r"` become `"\n"`); writing on POSIX writes the string
  verbatim (`os.linesep = "\n"`).
* Exceptions raised by filesystem calls are modelled with `Except String`;
  the messages are stand-ins of the form `"[Errno ..] ..."` (the precise OS
  message text is not modelled, only that it is the exception's message).
  The outer `try/except` of `handle_mcp_request` converts them to
  `{"error": <message>}` payloads.
-/

/-! ## Character-level path helpers -/

/-- Split a character list on `'/'` (the separator is dropped; empty
components are kept), mirroring `path.split('/')` in `posixpath`. -/
def splitSeg : List Char → List (List Char)
  | [] => [[]]
  | c :: rest =>
    if c = '/' then [] :: splitSeg rest
    else
      match splitSeg rest with
      | s :: ss => (c :: s) :: ss
      | [] => [[c]]

/-- Interleave `'/'` between components, mirroring `'/'.join(comps)`. -/
def joinSegsChars : List (List Char) → List Char
  | [] => []
  | [x] => x
  | x :: y :: xs => x ++ '/' :: joinSegsChars (y :: xs)

/-- One step of `posixpath.normpath`'s component loop:
`if comp in ('', '.'): continue; if (comp != '..' or (not initial_slashes
and not new_comps) or (new_comps and new_comps[-1] == '..')):
new_comps.append(comp); elif new_comps: new_comps.pop()`. -/
def normStep (initialSlashes : Nat) (acc : List (List Char)) (comp : List Char) :
    List (List Char) :=
  if comp = [] ∨ comp = ['.'] then acc
  else if comp ≠ ['.', '.'] ∨ (initialSlashes = 0 ∧ acc = []) ∨
      acc.getLast? = some ['.', '.'] then acc ++ [comp]
  else acc.dropLast

/-- `posixpath.normpath`'s initial-slash count: `1` for an absolute path,
`2` for exactly two leading slashes (POSIX-reserved), `0` otherwise. -/
def initialSlashes (cs : List Char) : Nat :=
  match cs with
  | '/' :: '/' :: '/' :: _ => 1
  | '/' :: '/' :: _ => 2
  | '/' :: _ => 1
  | _ => 0

/-- `posixpath.normpath` on a character list. -/
def normpathChars (cs : List Char) : List Char :=
  if cs = [] then ['.']
  else
    let comps := splitSeg cs
    let newComps := comps.foldl (normStep (initialSlashes cs)) []
    let res := List.replicate (initialSlashes cs) '/' ++ joinSegsChars newComps
    if res = [] then ['.'] else res

/-- `os.path.normpath` (POSIX flavour). -/
def normpath (s : String) : String := String.mk (normpathChars s.data)

/-- `filepath.lstrip("/")`: remove all leading `'/'` characters. -/
def lstripSlashes (s : String) : String :=
  String.mk (s.data.dropWhile (fun c => c = '/'))

/-- `os.path.join(a, b)` (POSIX, two arguments): if `b` is absolute it
replaces `a`; otherwise the parts are joined with a single separator. -/
def os_path_join (a b : String) : String :=
  match b.data with
  | '/' :: _ => b
  | _ =>
    if a.data = [] then b
    else if a.data.getLast? = some '/' then a ++ b
    else a ++ "/" ++ b

/-- The server's sandbox resolver:
`os.path.normpath(os.path.join(TEMP_DIR, p.lstrip("/")))`
(lines 65, 83, 102, 131, 153 of `fileops_server.py`). -/
def resolve (root p : String) : String :=
  normpath (os_path_join root (lstripSlashes p))

/-- Absolute path components of a (normalized, absolute) path string:
split on `'/'` and drop empty components. -/
def toSegsL (cs : List Char) : List String :=
  (splitSeg cs).filterMap (fun l => if l = [] then none else some (String.mk l))

/-- Absolute path components of a path string. -/
def toSegs (s : String) : List String := toSegsL s.data

/-- Render absolute path components back as an absolute path string
(used only inside modelled exception messages). -/
def segsToPath (p : List String) : String :=
  "/" ++ String.intercalate "/" p

/-- Spec-side notion (from the claim): `p` is the sandbox root itself or a
descendant of it, using a boundary-aware prefix check. -/
def underRoot (root p : String) : Bool :=
  p == root || (root ++ "/").isPrefixOf p

/-! ## Filesystem model

A filesystem is a finite association list from absolute paths (lists of
path components, the root `/` being `[]`) to entries.  The root directory
always exists.  Lookup takes the first binding for a key; the mutating
operations keep keys unique. -/

/-- A filesystem entry: a regular file with its text content, or a
directory. -/
inductive Entry
  | file (content : String)
  | dir
deriving DecidableEq

/-- The filesystem: a finite map from absolute paths to entries. -/
structure FS where
  entries : List (List String × Entry)
deriving DecidableEq

/-- Entry stored at path `p`, if any (the root `[]` is handled by the
predicates below). -/
def FS.lookup (fs : FS) (p : List String) : Option Entry :=
  (fs.entries.find? (fun e => e.1 = p)).map (·.2)

/-- Store entry `e` at path `p`, replacing any previous binding. -/
def FS.setEntry (fs : FS) (p : List String) (e : Entry) : FS :=
  ⟨(p, e) :: fs.entries.filter (fun x => ¬ x.1 = p)⟩

/-- `os.path.isfile`. -/
def FS.isFileAt (fs : FS) (p : List String) : Bool :=
  match fs.lookup p with
  | some (Entry.file _) => true
  | _ => false

/-- `os.path.isdir` (the root `/` is always a directory). -/
def FS.isDirAt (fs : FS) (p : List String) : Bool :=
  p = [] ||
    match fs.lookup p with
    | some Entry.dir => true
    | _ => false

/-- `os.path.exists`. -/
def FS.existsAt (fs : FS) (p : List String) : Bool :=
  p = [] || (fs.lookup p).isSome

/-- Lexically collapse `.`/`..`/empty components of an absolute path, as
the OS does when resolving a path containing dot components (no symlinks
in the model); this is what `os.path.abspath`'s normalization does. -/
def resolveDots (segs : List String) : List String :=
  segs.foldl
    (fun acc s =>
      if s = "" ∨ s = "." then acc
      else if s = ".." then acc.dropLast
      else acc ++ [s])
    []

/-- `os.path.lexists` as used by `glob` on paths that may still contain
literal `.`/`..` components. -/
def FS.lexistsAt (fs : FS) (p : List String) : Bool :=
  fs.existsAt (resolveDots p)

/-- The names of the immediate children of `p` (`os.listdir` order is the
order of the entry list; the OS order is implementation-defined). -/
def FS.childNames (fs : FS) (p : List String) : List String :=
  fs.entries.filterMap
    (fun x =>
      match x.1.getLast? with
      | some n => if x.1.dropLast = p then some n else none
      | none => none)

/-- `os.remove` on a regular file: drop exactly the binding at `p`. -/
def FS.removeExact (fs : FS) (p : List String) : FS :=
  ⟨fs.entries.filter (fun x => ¬ x.1 = p)⟩

/-- `shutil.rmtree`: drop `p` and every path below it. -/
def FS.removeTree (fs : FS) (p : List String) : FS :=
  ⟨fs.entries.filter (fun x => ¬ p.isPrefixOf x.1)⟩

/-- `os.makedirs(..., exist_ok=True)` walking down from `base`: create each
missing component as a directory; an existing regular file on the way
raises (`FileExistsError` for the final component, `NotADirectoryError`
for an intermediate one).  Directories created before the failure point
are kept, as with the real call. -/
def makedirsFrom (fs : FS) (base : List String) :
    List String → FS × Except String Unit
  | [] => (fs, Except.ok ())
  | s :: rest =>
    let q := base ++ [s]
    match fs.lookup q with
    | some Entry.dir => makedirsFrom fs q rest
    | some (Entry.file _) =>
      if rest = [] then
        (fs, Except.error ("[Errno 17] File exists: " ++ segsToPath q))
      else
        (fs, Except.error ("[Errno 20] Not a directory: " ++ segsToPath q))
    | none => makedirsFrom (fs.setEntry q Entry.dir) q rest

/-- `os.makedirs(p, exist_ok=True)`. -/
def FS.makedirs (fs : FS) (p : List String) : FS × Except String Unit :=
  makedirsFrom fs [] p

/-- `open(p, "w")` followed by `f.write(c)`: fails if `p` is a directory
(`IsADirectoryError`) or its parent is not a directory (`ENOENT`/
`ENOTDIR`); otherwise truncates/creates the file with content `c`
(written verbatim: on POSIX `os.linesep = "\n"` so text-mode writing is
the identity). -/
def FS.openWrite (fs : FS) (p : List String) (c : String) : Except String FS :=
  if fs.isDirAt p then
    Except.error ("[Errno 21] Is a directory: " ++ segsToPath p)
  else if ¬ fs.isDirAt p.dropLast then
    Except.error ("[Errno 2] No such file or directory: " ++ segsToPath p)
  else
    Except.ok (fs.setEntry p (Entry.file c))

/-- Python text-mode universal-newline decoding, applied by
`open(p, "r").read()`: `"\r\n"` and a lone `"\r"` both decode to `"\n"`. -/
def unlAux : List Char → List Char
  | [] => []
  | '\r' :: '\n' :: rest => '\n' :: unlAux rest
  | '\r' :: rest => '\n' :: unlAux rest
  | c :: rest => c :: unlAux rest

/-- Content returned by reading a file whose raw content is `s` in text
mode. -/
def universalNewlines (s : String) : String := String.mk (unlAux s.data)

/-- `os.path.getsize` on a regular file (byte length of the UTF-8
content). -/
def Entry.size : Entry → Nat
  | Entry.file c => c.utf8ByteSize
  | Entry.dir => 0

/-! ## `fnmatch` / `glob`

`search_files` calls `glob.glob(os.path.join(safe_path, pattern))`
(lines 138-139).  The embedding below follows `glob._iglob`
(`recursive=False`) and `fnmatch.fnmatchcase`.  All recursions are made
structural with an explicit fuel argument bounded by an obvious size
measure, so the definitions evaluate by kernel reduction. -/

/-- `glob.has_magic`: does the string contain `*`, `?` or `[`? -/
def hasMagicStr (s : String) : Bool :=
  s.data.any (fun c => c = '*' || c = '?' || c = '[')

/-- `glob._ishidden`: does the name start with a dot? -/
def ishidden (s : String) : Bool :=
  match s.data with
  | '.' :: _ => true
  | _ => false

/-- Scan a character-class body up to the closing `]`; `none` when the
class is unterminated (then `[` is literal, as in `fnmatch.translate`). -/
def bracketScan : List Char → Option (List Char × List Char)
  | [] => none
  | ']' :: rest => some ([], rest)
  | c :: rest =>
    match bracketScan rest with
    | some (body, r) => some (c :: body, r)
    | none => none

/-- Parse the remainder after a `[`: an optional leading `!` negates, a
leading `]` is a literal member, then everything up to the closing `]`. -/
def bracketParse (ps : List Char) : Option (Bool × List Char × List Char) :=
  let (neg, ps₁) :=
    match ps with
    | '!' :: t => (true, t)
    | _ => (false, ps)
  match ps₁ with
  | ']' :: t => (bracketScan t).map (fun pr => (neg, ']' :: pr.1, pr.2))
  | _ => (bracketScan ps₁).map (fun pr => (neg, pr.1, pr.2))

/-- Membership of a character in a class body, with `a-b` ranges (a
trailing or leading `-` is literal, as in a regular-expression class). -/
def inBracket : List Char → Char → Bool
  | a :: '-' :: b :: rest, c => (a ≤ c && c ≤ b) || inBracket rest c
  | a :: rest, c => a = c || inBracket rest c
  | [], _ => false

/-- Compiled glob-pattern element. -/
inductive GPat
  | lit (c : Char)
  | any
  | star
  | cls (neg : Bool) (body : List Char)
deriving DecidableEq

/-- Compile a glob pattern to a list of elements (`fnmatch.translate`
structure); fuel-bounded by the pattern length, which always suffices
because each step consumes at least one character. -/
def translateAux : Nat → List Char → List GPat
  | 0, _ => []
  | _ + 1, [] => []
  | n + 1, '*' :: ps => GPat.star :: translateAux n ps
  | n + 1, '?' :: ps => GPat.any :: translateAux n ps
  | n + 1, '[' :: ps =>
    match bracketParse ps with
    | some (neg, body, rest) => GPat.cls neg body :: translateAux n rest
    | none => GPat.lit '[' :: translateAux n ps
  | n + 1, c :: ps => GPat.lit c :: translateAux n ps

/-- Compile a glob pattern. -/
def translateGlob (p : String) : List GPat := translateAux p.data.length p.data

/-- Match a compiled pattern against a name; fuel-bounded by
`|pattern| + |name| + 1`, which suffices since every step shrinks the
pattern or the name. -/
def gmatchF : Nat → List GPat → List Char → Bool
  | 0, _, _ => false
  | _ + 1, [], [] => true
  | _ + 1, [], _ :: _ => false
  | n + 1, GPat.star :: ps, [] => gmatchF n ps []
  | n + 1, GPat.star :: ps, c :: s =>
    gmatchF n ps (c :: s) || gmatchF n (GPat.star :: ps) s
  | n + 1, GPat.any :: ps, _ :: s => gmatchF n ps s
  | _ + 1, GPat.any :: _, [] => false
  | n + 1, GPat.cls neg body :: ps, c :: s =>
    (if neg then ¬ inBracket body c else inBracket body c) && gmatchF n ps s
  | _ + 1, GPat.cls _ _ :: _, [] => false
  | n + 1, GPat.lit a :: ps, c :: s => a = c && gmatchF n ps s
  | _ + 1, GPat.lit _ :: _, [] => false

/-- `fnmatch.fnmatchcase(name, pat)` (POSIX `normcase` is the identity). -/
def fnmatchcase (name pat : String) : Bool :=
  gmatchF (pat.data.length + name.data.length + 1) (translateGlob pat) name.data

/-- `glob._iterdir` + `glob._glob1`: list the directory (an unreadable or
non-directory path yields `[]`, as the real `_iterdir` swallows the
`OSError`), keep only directories when `dironly`, filter hidden names
unless the pattern itself is hidden, and keep the `fnmatch` matches. -/
def glob1 (fs : FS) (d : List String) (pat : String) (dironly : Bool) :
    List String :=
  let names := if fs.isDirAt d then fs.childNames d else []
  let names := if dironly then names.filter (fun n => fs.isDirAt (d ++ [n])) else names
  let names := if ishidden pat then names else names.filter (fun n => ¬ ishidden n)
  names.filter (fun n => fnmatchcase n pat)

/-- `glob._iglob` (`recursive=False`) over the components of an absolute
pathname.  Fuel-bounded by the component count (the recursion is on the
dirname, which is strictly shorter).  The pathname `"/"` itself (no
components) yields `"/"` when the root is a directory, as
`glob.glob("/")` does. -/
def iglobF (fs : FS) : Nat → Bool → List String → List (List String)
  | _, _, [] => if fs.isDirAt [] then [[]] else []
  | 0, _, _ :: _ => []
  | n + 1, dironly, segs@(_ :: _) =>
    if ¬ segs.any hasMagicStr then
      -- `if not has_magic(pathname): if os.path.lexists(pathname): yield`
      if fs.lexistsAt segs then [segs] else []
    else
      let dirname := segs.dropLast
      let basename := segs.getLastD ""
      let dirs :=
        if dirname.any hasMagicStr then iglobF fs n true dirname else [dirname]
      if hasMagicStr basename then
        dirs.flatMap (fun d => (glob1 fs d basename dironly).map (fun m => d ++ [m]))
      else
        -- `_glob0`: a literal basename is kept when it exists
        dirs.flatMap (fun d =>
          if fs.lexistsAt (d ++ [basename]) then [d ++ [basename]] else [])

/-- `glob.glob` on an absolute pathname given by its components. -/
def globSegs (fs : FS) (segs : List String) : List (List String) :=
  iglobF fs segs.length false segs

/-- Length of the common prefix of two component lists
(`posixpath.relpath`'s common-prefix loop). -/
def commonPrefixLen : List String → List String → Nat
  | a :: as, b :: bs => if a = b then commonPrefixLen as bs + 1 else 0
  | _, _ => 0

/-- `os.path.relpath(path, start)` for absolute inputs: both sides are
normalized (`abspath`), then `..` climbs to the common ancestor and the
remaining components follow; equal paths give `"."`. -/
def relpathSegs (path start : List String) : String :=
  let p := resolveDots path
  let s := resolveDots start
  let i := commonPrefixLen p s
  let rel := List.replicate (s.length - i) ".." ++ p.drop i
  if rel = [] then "." else String.intercalate "/" rel

/-! ## Request parameters and payloads

The server reads the request body with `json.loads(body) if body else {}`
(line 48) and accesses it only via `parameters.get(...)`.  Parameter
values are modelled as JSON strings or `null` (the only value kinds the
claims concern); an absent key and a `null` value are indistinguishable
through `parameters.get`, exactly as in the source. -/

/-- A JSON parameter value. -/
inductive JVal
  | str (s : String)
  | null
deriving DecidableEq

/-- The parsed request body: a mapping from parameter names to values. -/
def Params := List (String × JVal)

/-- `parameters.get(k)` restricted to string values: `none` for an absent
key or a JSON `null`. -/
def getStr (ps : Params) (k : String) : Option String :=
  match (ps.find? (fun e => e.1 = k)).map (·.2) with
  | some (JVal.str s) => some s
  | _ => none

/-- Python truthiness of `parameters.get(k)` for the `if not x:` presence
checks: `None` and the empty string are both falsy. -/
def isBlank : Option String → Bool
  | none => true
  | some s => s = ""

/-- A JSON value returned to the client. -/
inductive JOut
  | str (s : String)
  | bool (b : Bool)
  | num (n : Nat)
  | null
  | arr (elems : List JOut)
  | obj (fields : List (String × JOut))

/-- The `{"error": msg}` payload. -/
def errObj (msg : String) : JOut := JOut.obj [("error", JOut.str msg)]

/-! ## The five operation handlers and the dispatcher

Each handler returns the possibly-updated filesystem together with either
a payload (`Except.ok`) or an uncaught Python exception's message
(`Except.error`), which the top-level `try/except` of
`handle_mcp_request` turns into an `{"error": ...}` payload. -/

/-- `write_file` (lines 55-74): validate `filepath` (falsy check) and
`content` (`is None` check — the empty string is valid), resolve, create
parent directories, then truncate-write the file. -/
def write_file_op (root : String) (ps : Params) (fs : FS) :
    FS × Except String JOut :=
  if isBlank (getStr ps "filepath") then
    (fs, Except.ok (errObj "filepath parameter is required"))
  else
    match getStr ps "content" with
    | none => (fs, Except.ok (errObj "content parameter is required"))
    | some content =>
      let fp := (getStr ps "filepath").getD ""
      let safe := toSegs (resolve root fp)
      match FS.makedirs fs safe.dropLast with
      | (fs₁, Except.error e) => (fs₁, Except.error e)
      | (fs₁, Except.ok _) =>
        match fs₁.openWrite safe content with
        | Except.error e => (fs₁, Except.error e)
        | Except.ok fs₂ =>
          (fs₂, Except.ok (JOut.obj
            [("success", JOut.bool true), ("filepath", JOut.str fp)]))

/-- `read_file` (lines 76-93): validate `filepath`, resolve, require a
regular file, read it in text mode (universal newlines). -/
def read_file_op (root : String) (ps : Params) (fs : FS) :
    FS × Except String JOut :=
  if isBlank (getStr ps "filepath") then
    (fs, Except.ok (errObj "filepath parameter is required"))
  else
    let fp := (getStr ps "filepath").getD ""
    let safe := toSegs (resolve root fp)
    match fs.lookup safe with
    | some (Entry.file c) =>
      (fs, Except.ok (JOut.obj
        [("content", JOut.str (universalNewlines c)), ("filepath", JOut.str fp)]))
    | _ => (fs, Except.ok (errObj ("File " ++ fp ++ " not found")))

/-- One `{name, is_directory, size}` item of a `list_directory` result
(lines 111-117); `size` is the file size for regular files and `null`
otherwise. -/
def dirItem (fs : FS) (d : List String) (n : String) : JOut :=
  JOut.obj
    [("name", JOut.str n),
     ("is_directory", JOut.bool (fs.isDirAt (d ++ [n]))),
     ("size",
       match fs.lookup (d ++ [n]) with
       | some (Entry.file c) => JOut.num c.utf8ByteSize
       | _ => JOut.null)]

/-- `list_directory` (lines 95-119): validate `directory_path`, resolve,
create the directory (with parents) when it is not already a directory,
then list the immediate children. -/
def list_directory_op (root : String) (ps : Params) (fs : FS) :
    FS × Except String JOut :=
  if isBlank (getStr ps "directory_path") then
    (fs, Except.ok (errObj "directory_path parameter is required"))
  else
    let dp := (getStr ps "directory_path").getD ""
    let safe := toSegs (resolve root dp)
    let created := if fs.isDirAt safe then (fs, Except.ok ()) else fs.makedirs safe
    match created with
    | (fs₁, Except.error e) => (fs₁, Except.error e)
    | (fs₁, Except.ok _) =>
      (fs₁, Except.ok (JOut.obj
        [("items", JOut.arr ((fs₁.childNames safe).map (dirItem fs₁ safe))),
         ("directory_path", JOut.str dp)]))

/-- `search_files` (lines 121-144): validate `directory_path` and
`pattern`, resolve, require the directory to exist, glob
`os.path.join(safe_path, pattern)`, and return the matches relative to
the sandbox root (`os.path.relpath(match, TEMP_DIR)`). -/
def search_files_op (root : String) (ps : Params) (fs : FS) :
    FS × Except String JOut :=
  if isBlank (getStr ps "directory_path") then
    (fs, Except.ok (errObj "directory_path parameter is required"))
  else if isBlank (getStr ps "pattern") then
    (fs, Except.ok (errObj "pattern parameter is required"))
  else
    let dp := (getStr ps "directory_path").getD ""
    let pat := (getStr ps "pattern").getD ""
    let safeStr := resolve root dp
    if ¬ fs.isDirAt (toSegs safeStr) then
      (fs, Except.ok (errObj ("Directory " ++ dp ++ " not found")))
    else
      let found := globSegs fs (toSegs (os_path_join safeStr pat))
      let rels := found.map (fun m => relpathSegs m (toSegs root))
      (fs, Except.ok (JOut.obj
        [("matches", JOut.arr (rels.map JOut.str)),
         ("pattern", JOut.str pat),
         ("directory_path", JOut.str dp)]))

/-- `delete_file` (lines 146-166): validate `filepath`, resolve, require
the target to exist, then `shutil.rmtree` a directory or `os.remove` a
regular file. -/
def delete_file_op (root : String) (ps : Params) (fs : FS) :
    FS × Except String JOut :=
  if isBlank (getStr ps "filepath") then
    (fs, Except.ok (errObj "filepath parameter is required"))
  else
    let fp := (getStr ps "filepath").getD ""
    let safe := toSegs (resolve root fp)
    if ¬ fs.existsAt safe then
      (fs, Except.ok (errObj ("File or directory " ++ fp ++ " not found")))
    else if fs.isDirAt safe then
      (fs.removeTree safe, Except.ok (JOut.obj
        [("success", JOut.bool true), ("filepath", JOut.str fp)]))
    else
      (fs.removeExact safe, Except.ok (JOut.obj
        [("success", JOut.bool true), ("filepath", JOut.str fp)]))

/-- The operation dispatcher: the `if function_name == ...` chain of
`handle_mcp_request` (lines 55, 76, 95, 121, 146, 168-169). -/
def dispatch (root fname : String) (ps : Params) (fs : FS) :
    FS × Except String JOut :=
  if fname = "write_file" then write_file_op root ps fs
  else if fname = "read_file" then read_file_op root ps fs
  else if fname = "list_directory" then list_directory_op root ps fs
  else if fname = "search_files" then search_files_op root ps fs
  else if fname = "delete_file" then delete_file_op root ps fs
  else (fs, Except.ok (errObj ("Function " ++ fname ++ " not supported")))

/-- The raw request body as the handler sees it: empty (`b""` is falsy, so
`json.loads` is not called and the parameters default to `{}`), non-empty
but not valid JSON (`json.loads` raises `JSONDecodeError`), or non-empty
valid JSON carrying a parameter mapping. -/
inductive Body
  | empty
  | invalid (raw : String)
  | valid (ps : Params)

/-- `parameters = json.loads(body) if body else {}` (line 48). -/
def parseParams : Body → Except Unit Params
  | Body.empty => Except.ok []
  | Body.invalid _ => Except.error ()
  | Body.valid ps => Except.ok ps

/-- The full request handler `handle_mcp_request` (lines 42-178): parse
the body, dispatch, and catch `json.JSONDecodeError` and every other
exception at the boundary, converting them to `{"error": ...}`
payloads.  The filesystem state reached before an exception is kept, as
in the real process. -/
def handle_mcp_request (root fname : String) (body : Body) (fs : FS) :
    FS × JOut :=
  match parseParams body with
  | Except.error _ => (fs, errObj "Invalid JSON in request body")
  | Except.ok ps =>
    match dispatch root fname ps fs with
    | (fs', Except.ok payload) => (fs', payload)
    | (fs', Except.error e) => (fs', errObj e)

/-! ## Payload shapes (spec §3, OperationResult) -/

/-- An error-shaped result: exactly the mapping with the single key
`"error"`. -/
def isErrObj (r : JOut) : Prop := ∃ m, r = errObj m

/-- A success-shaped result: one of the four success payload layouts of
the five operations (`delete_file` shares `write_file`'s layout). -/
def isSuccessObj (r : JOut) : Prop :=
  ∃ kvs, r = JOut.obj kvs ∧
    kvs.map Prod.fst ∈
      ([["success", "filepath"],
        ["content", "filepath"],
        ["items", "directory_path"],
        ["matches", "pattern", "directory_path"]] : List (List String))

/-- Exactly one of the two result shapes holds. -/
def ShapeOK (r : JOut) : Prop :=
  (isErrObj r ∧ ¬ isSuccessObj r) ∨ (isSuccessObj r ∧ ¬ isErrObj r)

/-- The claim's containment property, instantiated at one request: the
path resolved for the client-supplied `filepath` is inside the sandbox
root. -/
def c1ClaimAt (root p : String) : Prop := underRoot root (resolve root p) = true

/-! ## Concrete fixtures shared by witnesses and counterexamples -/

/-- A sandbox root used by the concrete instances. -/
def sbRoot : String := "/tmp/sb"

/-- A minimal filesystem containing just the sandbox root. -/
def fsSb : FS := ⟨[(["tmp"], Entry.dir), (["tmp", "sb"], Entry.dir)]⟩

/-- A filesystem where `f` is a regular file directly under the sandbox
root. -/
def fsFileBlocked : FS :=
  ⟨[(["tmp"], Entry.dir), (["tmp", "sb"], Entry.dir),
    (["tmp", "sb", "f"], Entry.file "x")]⟩

/-- A filesystem with `d/a.txt`, `d/b.log` and `d/sub/c.txt` under the
sandbox root (the layout of the spec's search example). -/
def fsSearch : FS :=
  ⟨[(["tmp"], Entry.dir), (["tmp", "sb"], Entry.dir), (["tmp", "sb", "d"], Entry.dir),
    (["tmp", "sb", "d", "a.txt"], Entry.file "A"),
    (["tmp", "sb", "d", "b.log"], Entry.file "B"),
    (["tmp", "sb", "d", "sub"], Entry.dir),
    (["tmp", "sb", "d", "sub", "c.txt"], Entry.file "C")]⟩

/-- The property established for every dispatch outcome: a payload with
exactly one of the two shapes and never the JSON-parse error message, or
an exception whose message is never the JSON-parse error message. -/
def GoodOut (r : FS × Except String JOut) : Prop :=
  (∃ p, r.2 = Except.ok p ∧ ShapeOK p ∧
    ∀ m, p = errObj m → m ≠ "Invalid JSON in request body") ∨
  (∃ e, r.2 = Except.error e ∧ e ≠ "Invalid JSON in request body")

/-- Well-formedness of a filesystem as real directory trees provide it:
every proper non-empty prefix of a stored path is a directory.  (Stated
over prefix lengths so that it is decidable on concrete filesystems.) -/
def FS.WF (fs : FS) : Prop :=
  ∀ x ∈ fs.entries, ∀ i, i < x.1.length → 0 < i → fs.isDirAt (x.1.take i) = true

instance (fs : FS) : Decidable fs.WF := by
  unfold FS.WF
  infer_instance

/-- A clean path component: non-empty, not `.` or `..`, and without a
separator — the invariant of `normpath`'s output components on an
absolute input. -/
def CleanSeg (l : List Char) : Prop :=
  l ≠ [] ∧ l ≠ ['.'] ∧ l ≠ ['.', '.'] ∧ '/' ∉ l

theorem shapeOK_err (m : String) : ShapeOK (errObj m) := by
  refine Or.inl ⟨⟨m, rfl⟩, ?_⟩
  rintro ⟨kvs, hk, hmem⟩
  rw [errObj] at hk
  injection hk with hk
  rw [← hk] at hmem
  simp at hmem

theorem shapeOK_of_keys (kvs : List (String × JOut))
    (h : kvs.map Prod.fst ∈
      ([["success", "filepath"],
        ["content", "filepath"],
        ["items", "directory_path"],
        ["matches", "pattern", "directory_path"]] : List (List String))) :
    ShapeOK (JOut.obj kvs) := by
  refine Or.inr ⟨⟨kvs, rfl, h⟩, ?_⟩
  rintro ⟨m, hm⟩
  rw [errObj] at hm
  injection hm with hm
  rw [hm] at h
  simp at h

/-! ## C1: path escape -/

/-- **C1** (code bug).  The resolver is
`normpath(join(TEMP_DIR, p.lstrip("/")))` with no containment check
(lines 64-65, 82-83, …), so a relative path with enough `..` segments
resolves outside the sandbox root and `write_file` then writes there:
with sandbox root `/tmp/fileops_sandbox`, the filepath
`../../etc/passwd` resolves to `/etc/passwd`, which is not under the
root, and the `write_file` handler creates `/etc/passwd` with the given
content.  The spec requires `resolve` to fail with `PathEscape` instead. -/
theorem c1_resolver_escapes_sandbox :
    resolve "/tmp/fileops_sandbox" "../../etc/passwd" = "/etc/passwd" ∧
    ¬ c1ClaimAt "/tmp/fileops_sandbox" "../../etc/passwd" ∧
    (write_file_op "/tmp/fileops_sandbox"
        [("filepath", JVal.str "../../etc/passwd"), ("content", JVal.str "owned")]
        ⟨[(["tmp"], Entry.dir), (["tmp", "fileops_sandbox"], Entry.dir)]⟩).1.lookup
      ["etc", "passwd"] = some (Entry.file "owned") := by
  refine ⟨rfl, ?_, rfl⟩
  rw [c1ClaimAt]
  decide

/-! ## C2: write/read round-trip -/

theorem lookup_setEntry_self (fs : FS) (p : List String) (e : Entry) :
    (fs.setEntry p e).lookup p = some e := by
  simp [FS.setEntry, FS.lookup]

theorem unlAux_eq_self (l : List Char) (h : ∀ c ∈ l, c ≠ '\r') : unlAux l = l := by
  induction l with
  | nil => rfl
  | cons c rest ih =>
    have hc : c ≠ '\r' := h c (List.mem_cons_self c rest)
    have hr : ∀ x ∈ rest, x ≠ '\r' := fun x hx => h x (List.mem_cons_of_mem c hx)
    rw [unlAux.eq_def]
    split
    · simp_all
    · simp_all
    · simp_all
    · rename_i c' rest' heq
      injection heq with h1 h2
      subst h1
      subst h2
      rw [ih hr]

theorem universalNewlines_eq_self (s : String) (h : ∀ c ∈ s.data, c ≠ '\r') :
    universalNewlines s = s := by
  rw [universalNewlines, unlAux_eq_self s.data h]

/-- **C2 counterexample.**  The handlers open files in text mode with
default newline handling, so reading translates a lone `"\r"` to
`"\n"`: writing `"a\rb"` to `cr.txt` succeeds, but reading `cr.txt` back
returns `"a\nb"`, not the content that was written. -/
theorem c2_counterexample_carriage_return :
    (write_file_op "/tmp/sb" [("filepath", JVal.str "cr.txt"), ("content", JVal.str "a\rb")]
        ⟨[(["tmp"], Entry.dir), (["tmp", "sb"], Entry.dir)]⟩).2
      = Except.ok (JOut.obj [("success", JOut.bool true), ("filepath", JOut.str "cr.txt")]) ∧
    (read_file_op "/tmp/sb" [("filepath", JVal.str "cr.txt")]
        (write_file_op "/tmp/sb" [("filepath", JVal.str "cr.txt"), ("content", JVal.str "a\rb")]
          ⟨[(["tmp"], Entry.dir), (["tmp", "sb"], Entry.dir)]⟩).1).2
      = Except.ok (JOut.obj [("content", JOut.str "a\nb"), ("filepath", JOut.str "cr.txt")]) ∧
    "a\nb" ≠ "a\rb" := by
  exact ⟨rfl, rfl, by decide⟩

/-- **C2** (amended: the content must contain no carriage-return
character; text-mode universal-newline decoding otherwise rewrites
`"\r"`/`"\r\n"` to `"\n"` on the way back).  Whenever `write_file`
succeeds for `filepath` and such a content, `read_file` of the same
`filepath` succeeds and returns exactly the content written. -/
theorem c2_write_read_roundtrip (root fp c : String) (ps ps' : Params)
    (fs fs' : FS)
    (hfp : getStr ps "filepath" = some fp)
    (hc : getStr ps "content" = some c)
    (hcr : ∀ ch ∈ c.data, ch ≠ '\r')
    (hfp' : getStr ps' "filepath" = some fp)
    (hw : write_file_op root ps fs =
      (fs', Except.ok (JOut.obj [("success", JOut.bool true), ("filepath", JOut.str fp)]))) :
    read_file_op root ps' fs' =
      (fs', Except.ok (JOut.obj [("content", JOut.str c), ("filepath", JOut.str fp)])) := by
  rw [write_file_op] at hw
  split at hw
  · simp [errObj] at hw
  · rename_i hnb
    rw [hc] at hw
    rw [hfp] at hw hnb
    simp only [Option.getD_some] at hw
    split at hw
    · simp at hw
    · rename_i fs₁ u hmk
      split at hw
      · simp at hw
      · rename_i fs₂ how
        rw [FS.openWrite] at how
        split at how
        · cases how
        · split at how
          · cases how
          · cases how
            cases hw
            rw [read_file_op, hfp']
            have hb : isBlank (some fp) = false := by
              rw [isBlank]
              simp only [decide_eq_false_iff_not]
              intro hfpe
              rw [hfpe] at hnb
              exact hnb rfl
            rw [hb]
            simp only [Bool.false_eq_true, if_false, Option.getD_some]
            rw [lookup_setEntry_self]
            simp [universalNewlines_eq_self c hcr]

/-- Witness for C2: writing `"hé\nllo"` (multi-line, unicode, no `"\r"`)
to `w.txt` and reading it back returns exactly that content. -/
theorem c2_write_read_roundtrip_witness :
    read_file_op "/tmp/sb" [("filepath", JVal.str "w.txt")]
        (write_file_op "/tmp/sb"
          [("filepath", JVal.str "w.txt"), ("content", JVal.str "hé\nllo")]
          ⟨[(["tmp"], Entry.dir), (["tmp", "sb"], Entry.dir)]⟩).1 =
      ((write_file_op "/tmp/sb"
          [("filepath", JVal.str "w.txt"), ("content", JVal.str "hé\nllo")]
          ⟨[(["tmp"], Entry.dir), (["tmp", "sb"], Entry.dir)]⟩).1,
        Except.ok (JOut.obj
          [("content", JOut.str "hé\nllo"), ("filepath", JOut.str "w.txt")])) := by
  exact c2_write_read_roundtrip "/tmp/sb" "w.txt" "hé\nllo"
    [("filepath", JVal.str "w.txt"), ("content", JVal.str "hé\nllo")]
    [("filepath", JVal.str "w.txt")] ⟨[(["tmp"], Entry.dir), (["tmp", "sb"], Entry.dir)]⟩
    _ rfl rfl (by decide) rfl rfl


/-! ## Association-list lookup lemmas -/

theorem find?_filter_key (l : List (List String × Entry)) (f : List String → Bool)
    (q : List String) :
    ((l.filter (fun x => f x.1)).find? (fun e => e.1 = q)).map (·.2) =
      if f q then (l.find? (fun e => e.1 = q)).map (·.2) else none := by
  induction l with
  | nil => simp
  | cons x t ih =>
    rw [List.filter_cons]
    by_cases hq : x.1 = q
    · by_cases hf : f x.1
      · rw [if_pos hf]
        rw [List.find?_cons_of_pos _ (by simp [hq]), List.find?_cons_of_pos _ (by simp [hq])]
        rw [hq] at hf
        rw [if_pos hf]
      · rw [if_neg hf]
        rw [List.find?_cons_of_pos _ (by simp [hq])]
        rw [ih]
        rw [hq] at hf
        simp [hf]
    · by_cases hf : f x.1
      · rw [if_pos hf]
        rw [List.find?_cons_of_neg _ (by simp [hq]), List.find?_cons_of_neg _ (by simp [hq])]
        exact ih
      · rw [if_neg hf]
        rw [ih, List.find?_cons_of_neg _ (by simp [hq])]

theorem lookup_setEntry (fs : FS) (p : List String) (e : Entry) (q : List String) :
    (fs.setEntry p e).lookup q = if q = p then some e else fs.lookup q := by
  by_cases hq : q = p
  · subst hq
    rw [FS.setEntry, FS.lookup]
    simp [List.find?]
  · rw [FS.setEntry, FS.lookup]
    have hthis := find?_filter_key fs.entries (fun k => !decide (k = p)) q
    rw [List.find?_cons_of_neg _ (by simp [Ne.symm hq])]
    simp only [Bool.not_eq_true', decide_eq_false_iff_not] at hthis
    rw [if_neg hq]
    rw [FS.lookup]
    simpa [hq] using hthis

theorem lookup_removeTree (fs : FS) (p q : List String) :
    (fs.removeTree p).lookup q =
      if p.isPrefixOf q then none else fs.lookup q := by
  rw [FS.removeTree, FS.lookup]
  have hthis := find?_filter_key fs.entries (fun k => decide (¬ p.isPrefixOf k = true)) q
  rw [FS.lookup]
  by_cases hp : p.isPrefixOf q = true
  · rw [if_pos hp]
    rw [if_neg (by simp [hp])] at hthis
    exact hthis
  · rw [if_neg hp]
    rw [if_pos (by simp [hp])] at hthis
    exact hthis

theorem lookup_removeExact (fs : FS) (p q : List String) :
    (fs.removeExact p).lookup q = if q = p then none else fs.lookup q := by
  rw [FS.removeExact, FS.lookup]
  have hthis := find?_filter_key fs.entries (fun k => decide (¬ k = p)) q
  rw [FS.lookup]
  by_cases hp : q = p
  · rw [if_pos hp]
    rw [if_neg (by simp [hp])] at hthis
    exact hthis
  · rw [if_neg hp]
    rw [if_pos (by simp [hp])] at hthis
    exact hthis

/-! ## C5: search_files requires an existing directory -/

/-- **C5.**  `search_files` does not auto-create the directory: with both
parameters present and non-empty, when the resolved `directory_path` is
not an existing directory the handler returns exactly the payload
`{"error": "Directory <directory_path> not found"}` and the filesystem
is returned unchanged (lines 134-135). -/
theorem c5_search_missing_dir_error (root dp pat : String) (ps : Params) (fs : FS)
    (hdp : getStr ps "directory_path" = some dp) (hdpne : dp ≠ "")
    (hpat : getStr ps "pattern" = some pat) (hpatne : pat ≠ "")
    (hnd : ¬ fs.isDirAt (toSegs (resolve root dp)) = true) :
    dispatch root "search_files" ps fs =
      (fs, Except.ok (errObj ("Directory " ++ dp ++ " not found"))) := by
  rw [dispatch, if_neg (by decide), if_neg (by decide), if_neg (by decide), if_pos rfl]
  rw [search_files_op, hdp, hpat]
  have h1 : isBlank (some dp) = false := by
    rw [isBlank]; simpa using hdpne
  have h2 : isBlank (some pat) = false := by
    rw [isBlank]; simpa using hpatne
  rw [h1, h2]
  simp only [Bool.false_eq_true, if_false, Option.getD_some]
  rw [if_pos hnd]

/-- Witness for C5 at a concrete request: searching a directory that does
not exist under the sandbox root yields the not-found error payload and
leaves the state unchanged. -/
theorem c5_search_missing_dir_error_witness :
    dispatch "/tmp/sb" "search_files"
        [("directory_path", JVal.str "nodir"), ("pattern", JVal.str "*.txt")]
        ⟨[(["tmp"], Entry.dir), (["tmp", "sb"], Entry.dir)]⟩ =
      (⟨[(["tmp"], Entry.dir), (["tmp", "sb"], Entry.dir)]⟩,
        Except.ok (errObj "Directory nodir not found")) := by
  exact c5_search_missing_dir_error "/tmp/sb" "nodir" "*.txt"
    [("directory_path", JVal.str "nodir"), ("pattern", JVal.str "*.txt")]
    ⟨[(["tmp"], Entry.dir), (["tmp", "sb"], Entry.dir)]⟩
    rfl (by decide) rfl (by decide) (by decide)

/-! ## C7: delete_file -/

/-- **C7.**  With `filepath` present and non-empty: when the resolved
target exists, `delete_file` returns `{success: true, filepath}` and
removes the whole subtree when the target is a directory, or exactly
that binding when it is a regular file; when the target does not exist
it returns `{"error": "File or directory <filepath> not found"}` and the
filesystem is unchanged (lines 146-166). -/
theorem c7_delete_file (root fp : String) (ps : Params) (fs : FS)
    (hfp : getStr ps "filepath" = some fp) (hne : fp ≠ "") :
    (fs.existsAt (toSegs (resolve root fp)) = true →
      (dispatch root "delete_file" ps fs).2 =
        Except.ok (JOut.obj [("success", JOut.bool true), ("filepath", JOut.str fp)]) ∧
      (fs.isDirAt (toSegs (resolve root fp)) = true →
        ∀ q, (dispatch root "delete_file" ps fs).1.lookup q =
          if (toSegs (resolve root fp)).isPrefixOf q then none else fs.lookup q) ∧
      (fs.isDirAt (toSegs (resolve root fp)) = false →
        ∀ q, (dispatch root "delete_file" ps fs).1.lookup q =
          if q = toSegs (resolve root fp) then none else fs.lookup q)) ∧
    (fs.existsAt (toSegs (resolve root fp)) = false →
      dispatch root "delete_file" ps fs =
        (fs, Except.ok (errObj ("File or directory " ++ fp ++ " not found")))) := by
  have hb : isBlank (some fp) = false := by
    rw [isBlank]; simpa using hne
  rw [dispatch, if_neg (by decide), if_neg (by decide), if_neg (by decide),
    if_neg (by decide), if_pos rfl]
  rw [delete_file_op, hfp, hb]
  simp only [Bool.false_eq_true, if_false, Option.getD_some]
  constructor
  · intro hex
    rw [if_neg (by simp [hex])]
    by_cases hd : fs.isDirAt (toSegs (resolve root fp)) = true
    · rw [if_pos hd]
      refine ⟨rfl, fun _ q => ?_, fun hnd => absurd hd (by simp [hnd])⟩
      exact lookup_removeTree fs _ q
    · rw [if_neg hd]
      refine ⟨rfl, fun hd' => absurd hd' hd, fun _ q => ?_⟩
      exact lookup_removeExact fs _ q
  · intro hnex
    rw [if_pos (by simp [hnex])]

/-- Witness for C7 at concrete requests: deleting an existing directory
removes its subtree and reports success, and deleting a missing path
reports the not-found error. -/
theorem c7_delete_file_witness :
    ((dispatch "/tmp/sb" "delete_file" [("filepath", JVal.str "d")]
        ⟨[(["tmp"], Entry.dir), (["tmp", "sb"], Entry.dir), (["tmp", "sb", "d"], Entry.dir),
          (["tmp", "sb", "d", "x.txt"], Entry.file "X")]⟩).2 =
      Except.ok (JOut.obj [("success", JOut.bool true), ("filepath", JOut.str "d")])) ∧
    ((dispatch "/tmp/sb" "delete_file" [("filepath", JVal.str "d")]
        ⟨[(["tmp"], Entry.dir), (["tmp", "sb"], Entry.dir), (["tmp", "sb", "d"], Entry.dir),
          (["tmp", "sb", "d", "x.txt"], Entry.file "X")]⟩).1.lookup
        ["tmp", "sb", "d", "x.txt"] = none) := by
  have h := c7_delete_file "/tmp/sb" "d" [("filepath", JVal.str "d")]
    ⟨[(["tmp"], Entry.dir), (["tmp", "sb"], Entry.dir), (["tmp", "sb", "d"], Entry.dir),
      (["tmp", "sb", "d", "x.txt"], Entry.file "X")]⟩ rfl (by decide)
  have h1 := h.1 (by decide)
  refine ⟨h1.1, ?_⟩
  have h2 := h1.2.1 (by decide) ["tmp", "sb", "d", "x.txt"]
  rw [h2, if_pos (by decide)]

/-! ## makedirs lemmas -/

/-- `makedirs` only creates paths no longer than its argument: lookups of
strictly longer paths are unchanged. -/
theorem makedirsFrom_lookup_long (l : List String) :
    ∀ (fs : FS) (base q : List String), base.length + l.length < q.length →
      ((makedirsFrom fs base l).1).lookup q = fs.lookup q := by
  induction l with
  | nil => intro fs base q _; rfl
  | cons s rest ih =>
    intro fs base q h
    rw [makedirsFrom]
    cases hlk : fs.lookup (base ++ [s]) with
    | none =>
      simp only [hlk]
      rw [ih (fs.setEntry (base ++ [s]) Entry.dir) (base ++ [s]) q
        (by simp only [List.length_append, List.length_cons, List.length_nil,
          List.length_singleton] at h ⊢; omega)]
      rw [lookup_setEntry]
      rw [if_neg]
      intro he
      have hlen : q.length = base.length + 1 := by
        rw [he]; simp
      simp only [List.length_cons] at h
      omega
    | some e =>
      cases e with
      | dir =>
        simp only [hlk]
        exact ih fs (base ++ [s]) q
          (by simp only [List.length_append, List.length_cons, List.length_nil,
            List.length_singleton] at h ⊢; omega)
      | file c =>
        simp only [hlk]
        by_cases hr : rest = []
        · rw [if_pos hr]
        · rw [if_neg hr]

/-- A successful `makedirs` leaves a directory at its argument (walking
from a directory base). -/
theorem makedirsFrom_ok_isDir (l : List String) :
    ∀ (fs : FS) (base : List String) (fs' : FS) (u : Unit),
      fs.isDirAt base = true → makedirsFrom fs base l = (fs', Except.ok u) →
      fs'.isDirAt (base ++ l) = true := by
  induction l with
  | nil =>
    intro fs base fs' u hb hmk
    rw [makedirsFrom] at hmk
    cases hmk
    simpa using hb
  | cons s rest ih =>
    intro fs base fs' u hb hmk
    rw [makedirsFrom] at hmk
    cases hlk : fs.lookup (base ++ [s]) with
    | none =>
      rw [hlk] at hmk
      simp only at hmk
      have hd : (fs.setEntry (base ++ [s]) Entry.dir).isDirAt (base ++ [s]) = true := by
        rw [FS.isDirAt, lookup_setEntry, if_pos rfl]
        simp
      have := ih (fs.setEntry (base ++ [s]) Entry.dir) (base ++ [s]) fs' u hd hmk
      simpa using this
    | some e =>
      cases e with
      | dir =>
        rw [hlk] at hmk
        simp only at hmk
        have hd : fs.isDirAt (base ++ [s]) = true := by
          rw [FS.isDirAt, hlk]
          simp
        have := ih fs (base ++ [s]) fs' u hd hmk
        simpa using this
      | file c =>
        rw [hlk] at hmk
        by_cases hr : rest = []
        · rw [if_pos hr] at hmk
          simp at hmk
        · rw [if_neg hr] at hmk
          simp at hmk

/-! ## C8: write_file validation -/

/-- **C8.**  `write_file` returns a validation error exactly when
`filepath` is missing (absent, `null`, or — per the falsy check, see C9 —
empty) or `content` is absent/`null`: (a) a missing `filepath` yields the
`filepath` error; (b) with a good `filepath`, absent/`null` `content`
yields the `content` error; (c) with a good `filepath` and any string
`content` — including the empty string — neither validation error is
produced; and (d) with `content = ""` the write succeeds whenever the
filesystem permits it (parent directories creatable, target not an
existing directory), lines 56-74. -/
theorem c8_write_file_validation (root : String) (ps : Params) (fs : FS) :
    (isBlank (getStr ps "filepath") = true →
      dispatch root "write_file" ps fs =
        (fs, Except.ok (errObj "filepath parameter is required"))) ∧
    (∀ fp, getStr ps "filepath" = some fp → fp ≠ "" →
      getStr ps "content" = none →
      dispatch root "write_file" ps fs =
        (fs, Except.ok (errObj "content parameter is required"))) ∧
    (∀ fp c, getStr ps "filepath" = some fp → fp ≠ "" →
      getStr ps "content" = some c →
      (dispatch root "write_file" ps fs).2 ≠
        Except.ok (errObj "filepath parameter is required") ∧
      (dispatch root "write_file" ps fs).2 ≠
        Except.ok (errObj "content parameter is required")) ∧
    (∀ fp fs₁, getStr ps "filepath" = some fp → fp ≠ "" →
      getStr ps "content" = some "" →
      FS.makedirs fs (toSegs (resolve root fp)).dropLast = (fs₁, Except.ok ()) →
      fs.isDirAt (toSegs (resolve root fp)) = false →
      dispatch root "write_file" ps fs =
        (fs₁.setEntry (toSegs (resolve root fp)) (Entry.file ""),
          Except.ok (JOut.obj
            [("success", JOut.bool true), ("filepath", JOut.str fp)]))) := by
  rw [dispatch, if_pos rfl]
  refine ⟨?_, ?_, ?_, ?_⟩
  · intro hb
    rw [write_file_op, if_pos hb]
  · intro fp hfp hne hc
    have hb : isBlank (getStr ps "filepath") = false := by
      rw [hfp, isBlank]; simpa using hne
    rw [write_file_op, hb]
    simp only [Bool.false_eq_true, if_false]
    rw [hc]
  · intro fp c hfp hne hc
    have hb : isBlank (getStr ps "filepath") = false := by
      rw [hfp, isBlank]; simpa using hne
    rw [write_file_op, hb]
    simp only [Bool.false_eq_true, if_false]
    rw [hc, hfp]
    simp only [Option.getD_some]
    constructor
    · cases hmk : FS.makedirs fs (toSegs (resolve root fp)).dropLast with
      | mk fs₁ r =>
        cases r with
        | error e => simp
        | ok u =>
          cases how : fs₁.openWrite (toSegs (resolve root fp)) c with
          | error e => simp [how]
          | ok fs₂ =>
            simp only [how]
            intro hcon
            rw [errObj] at hcon
            injection hcon with hcon
            injection hcon with hcon
            simp at hcon
    · cases hmk : FS.makedirs fs (toSegs (resolve root fp)).dropLast with
      | mk fs₁ r =>
        cases r with
        | error e => simp
        | ok u =>
          cases how : fs₁.openWrite (toSegs (resolve root fp)) c with
          | error e => simp [how]
          | ok fs₂ =>
            simp only [how]
            intro hcon
            rw [errObj] at hcon
            injection hcon with hcon
            injection hcon with hcon
            simp at hcon
  · intro fp fs₁ hfp hne hc hmk hnd
    have hb : isBlank (getStr ps "filepath") = false := by
      rw [hfp, isBlank]; simpa using hne
    rw [write_file_op, hb]
    simp only [Bool.false_eq_true, if_false]
    rw [hc, hfp]
    simp only [Option.getD_some]
    rw [hmk]
    have hsne : toSegs (resolve root fp) ≠ [] := by
      intro he
      rw [FS.isDirAt, he] at hnd
      simp at hnd
    have hlong : (toSegs (resolve root fp)).dropLast.length <
        (toSegs (resolve root fp)).length := by
      cases hseg : toSegs (resolve root fp) with
      | nil => exact absurd hseg hsne
      | cons a t => simp only [List.length_dropLast, List.length_cons]; omega
    have hlk : fs₁.lookup (toSegs (resolve root fp)) =
        fs.lookup (toSegs (resolve root fp)) := by
      have := makedirsFrom_lookup_long (toSegs (resolve root fp)).dropLast fs []
        (toSegs (resolve root fp)) (by simpa using hlong)
      rw [FS.makedirs] at hmk
      rw [hmk] at this
      exact this
    have hnd₁ : fs₁.isDirAt (toSegs (resolve root fp)) = false := by
      rw [FS.isDirAt, hlk]
      rw [FS.isDirAt] at hnd
      exact hnd
    have hpd : fs₁.isDirAt (toSegs (resolve root fp)).dropLast = true := by
      have := makedirsFrom_ok_isDir (toSegs (resolve root fp)).dropLast fs [] fs₁ ()
        (by rw [FS.isDirAt]; simp) (by rw [← FS.makedirs]; exact hmk)
      simpa using this
    have how : fs₁.openWrite (toSegs (resolve root fp)) "" =
        Except.ok (fs₁.setEntry (toSegs (resolve root fp)) (Entry.file "")) := by
      rw [FS.openWrite, if_neg (by simp [hnd₁]), if_neg (by simp [hpd])]
    simp [how]

/-! ## C9: empty string treated as omitted -/

/-- **C9.**  The presence checks are Python falsy checks (`if not x:`), so
an empty-string value of `filepath`, `directory_path` or `pattern` is
treated exactly like an absent (or `null`) parameter: the dispatcher
returns the `"<name> parameter is required"` payload with the filesystem
untouched, before the resolver is ever applied (lines 59-60, 79-80,
98-99, 125-128, 149-150).  `isBlank` is `true` precisely for `none`
(absent or `null`) and `some ""`, so each implication below covers the
empty-string and the omitted case uniformly. -/
theorem c9_empty_string_like_missing (root : String) (ps : Params) (fs : FS) :
    (isBlank (getStr ps "filepath") = true →
      dispatch root "write_file" ps fs =
        (fs, Except.ok (errObj "filepath parameter is required")) ∧
      dispatch root "read_file" ps fs =
        (fs, Except.ok (errObj "filepath parameter is required")) ∧
      dispatch root "delete_file" ps fs =
        (fs, Except.ok (errObj "filepath parameter is required"))) ∧
    (isBlank (getStr ps "directory_path") = true →
      dispatch root "list_directory" ps fs =
        (fs, Except.ok (errObj "directory_path parameter is required")) ∧
      dispatch root "search_files" ps fs =
        (fs, Except.ok (errObj "directory_path parameter is required"))) ∧
    (isBlank (getStr ps "directory_path") = false →
      isBlank (getStr ps "pattern") = true →
      dispatch root "search_files" ps fs =
        (fs, Except.ok (errObj "pattern parameter is required"))) := by
  refine ⟨fun hb => ⟨?_, ?_, ?_⟩, fun hb => ⟨?_, ?_⟩, fun hd hb => ?_⟩
  · rw [dispatch, if_pos rfl, write_file_op, if_pos hb]
  · rw [dispatch, if_neg (by decide), if_pos rfl, read_file_op, if_pos hb]
  · rw [dispatch, if_neg (by decide), if_neg (by decide), if_neg (by decide),
      if_neg (by decide), if_pos rfl, delete_file_op, if_pos hb]
  · rw [dispatch, if_neg (by decide), if_neg (by decide), if_pos rfl,
      list_directory_op, if_pos hb]
  · rw [dispatch, if_neg (by decide), if_neg (by decide), if_neg (by decide),
      if_pos rfl, search_files_op, if_pos hb]
  · rw [dispatch, if_neg (by decide), if_neg (by decide), if_neg (by decide),
      if_pos rfl, search_files_op, hd]
    simp only [Bool.false_eq_true, if_false]
    rw [if_pos hb]

/-! ## C3: exactly one result shape, exceptions surfaced -/

theorem errObj_inj {a b : String} (h : errObj a = errObj b) : a = b := by
  rw [errObj, errObj] at h
  injection h with h
  simpa using h

theorem obj_ne_errObj_of_keys (kvs : List (String × JOut)) (m : String)
    (h : kvs.map Prod.fst ≠ ["error"]) : JOut.obj kvs ≠ errObj m := by
  intro he
  rw [errObj] at he
  injection he with he
  rw [he] at h
  exact h rfl

theorem goodOut_ok_err (fs : FS) (m : String)
    (hm : m ≠ "Invalid JSON in request body") :
    GoodOut (fs, Except.ok (errObj m)) :=
  Or.inl ⟨errObj m, rfl, shapeOK_err m,
    fun m' hm' => by rw [← errObj_inj hm']; exact hm⟩

theorem goodOut_ok_success (fs : FS) (kvs : List (String × JOut))
    (hk : kvs.map Prod.fst ∈
      ([["success", "filepath"],
        ["content", "filepath"],
        ["items", "directory_path"],
        ["matches", "pattern", "directory_path"]] : List (List String)))
    (hne : kvs.map Prod.fst ≠ ["error"]) :
    GoodOut (fs, Except.ok (JOut.obj kvs)) :=
  Or.inl ⟨JOut.obj kvs, rfl, shapeOK_of_keys kvs hk,
    fun m hm => absurd hm (obj_ne_errObj_of_keys kvs m hne)⟩

theorem goodOut_exc (fs : FS) (e : String)
    (he : e ≠ "Invalid JSON in request body") :
    GoodOut (fs, Except.error e) := Or.inr ⟨e, rfl, he⟩

theorem ne_invalid_of_head (s : String) (c : Char) (h : s.data.head? = some c)
    (hne : c ≠ 'I') : s ≠ "Invalid JSON in request body" := by
  intro he
  rw [he] at h
  have h2 : some 'I' = some c := by rw [← h]; rfl
  injection h2 with h3
  exact hne h3.symm

theorem file_not_found_ne_invalid (fp : String) :
    ("File " ++ fp ++ " not found") ≠ "Invalid JSON in request body" :=
  ne_invalid_of_head _ 'F' (by rw [String.data_append, String.data_append]; rfl)
    (by decide)

theorem dir_not_found_ne_invalid (dp : String) :
    ("Directory " ++ dp ++ " not found") ≠ "Invalid JSON in request body" :=
  ne_invalid_of_head _ 'D' (by rw [String.data_append, String.data_append]; rfl)
    (by decide)

theorem file_or_dir_not_found_ne_invalid (fp : String) :
    ("File or directory " ++ fp ++ " not found") ≠ "Invalid JSON in request body" :=
  ne_invalid_of_head _ 'F' (by rw [String.data_append, String.data_append]; rfl)
    (by decide)

theorem function_not_supported_ne_invalid (fname : String) :
    ("Function " ++ fname ++ " not supported") ≠ "Invalid JSON in request body" :=
  ne_invalid_of_head _ 'F' (by rw [String.data_append, String.data_append]; rfl)
    (by decide)

theorem makedirsFrom_error_ne_invalid (l : List String) :
    ∀ (fs : FS) (base : List String) (fs' : FS) (e : String),
      makedirsFrom fs base l = (fs', Except.error e) →
      e ≠ "Invalid JSON in request body" := by
  induction l with
  | nil =>
    intro fs base fs' e h
    rw [makedirsFrom] at h
    simp at h
  | cons s rest ih =>
    intro fs base fs' e h
    rw [makedirsFrom] at h
    cases hlk : fs.lookup (base ++ [s]) with
    | none =>
      rw [hlk] at h
      simp only at h
      exact ih _ _ _ _ h
    | some ent =>
      cases ent with
      | dir =>
        rw [hlk] at h
        simp only at h
        exact ih _ _ _ _ h
      | file c =>
        rw [hlk] at h
        by_cases hr : rest = []
        · rw [if_pos hr] at h
          simp only [Prod.mk.injEq, Except.error.injEq] at h
          rw [← h.2]
          exact ne_invalid_of_head _ '[' (by rw [String.data_append]; rfl) (by decide)
        · rw [if_neg hr] at h
          simp only [Prod.mk.injEq, Except.error.injEq] at h
          rw [← h.2]
          exact ne_invalid_of_head _ '[' (by rw [String.data_append]; rfl) (by decide)

theorem openWrite_error_ne_invalid (fs : FS) (p : List String) (c e : String)
    (h : fs.openWrite p c = Except.error e) :
    e ≠ "Invalid JSON in request body" := by
  rw [FS.openWrite] at h
  split at h
  · injection h with h
    rw [← h]
    exact ne_invalid_of_head _ '[' (by rw [String.data_append]; rfl) (by decide)
  · split at h
    · injection h with h
      rw [← h]
      exact ne_invalid_of_head _ '[' (by rw [String.data_append]; rfl) (by decide)
    · cases h

theorem write_file_op_good (root : String) (ps : Params) (fs : FS) :
    GoodOut (write_file_op root ps fs) := by
  rw [write_file_op]
  dsimp only
  split
  · exact goodOut_ok_err _ _ (by decide)
  · split
    · exact goodOut_ok_err _ _ (by decide)
    · split
      · rename_i fs₁ e hmk
        exact goodOut_exc _ _ (makedirsFrom_error_ne_invalid _ _ _ _ _ hmk)
      · rename_i fs₁ u hmk
        split
        · rename_i e how
          exact goodOut_exc _ _ (openWrite_error_ne_invalid _ _ _ _ how)
        · exact goodOut_ok_success _ _ (by simp) (by simp)

theorem read_file_op_good (root : String) (ps : Params) (fs : FS) :
    GoodOut (read_file_op root ps fs) := by
  rw [read_file_op]
  dsimp only
  split
  · exact goodOut_ok_err _ _ (by decide)
  · split
    · exact goodOut_ok_success _ _ (by simp) (by simp)
    · exact goodOut_ok_err _ _ (file_not_found_ne_invalid _)

theorem list_directory_op_good (root : String) (ps : Params) (fs : FS) :
    GoodOut (list_directory_op root ps fs) := by
  rw [list_directory_op]
  dsimp only
  split
  · exact goodOut_ok_err _ _ (by decide)
  · split
    · rename_i fs₁ e hmk
      by_cases hd : fs.isDirAt (toSegs (resolve root ((getStr ps "directory_path").getD ""))) = true
      · rw [if_pos hd] at hmk
        simp at hmk
      · rw [if_neg hd] at hmk
        exact goodOut_exc _ _ (makedirsFrom_error_ne_invalid _ _ _ _ _ hmk)
    · exact goodOut_ok_success _ _ (by simp) (by simp)

theorem search_files_op_good (root : String) (ps : Params) (fs : FS) :
    GoodOut (search_files_op root ps fs) := by
  rw [search_files_op]
  dsimp only
  split
  · exact goodOut_ok_err _ _ (by decide)
  · split
    · exact goodOut_ok_err _ _ (by decide)
    · split
      · exact goodOut_ok_err _ _ (dir_not_found_ne_invalid _)
      · exact goodOut_ok_success _ _ (by simp) (by simp)

theorem delete_file_op_good (root : String) (ps : Params) (fs : FS) :
    GoodOut (delete_file_op root ps fs) := by
  rw [delete_file_op]
  dsimp only
  split
  · exact goodOut_ok_err _ _ (by decide)
  · split
    · exact goodOut_ok_err _ _ (file_or_dir_not_found_ne_invalid _)
    · split
      · exact goodOut_ok_success _ _ (by simp) (by simp)
      · exact goodOut_ok_success _ _ (by simp) (by simp)

theorem dispatch_good (root fname : String) (ps : Params) (fs : FS) :
    GoodOut (dispatch root fname ps fs) := by
  rw [dispatch]
  split
  · exact write_file_op_good root ps fs
  · split
    · exact read_file_op_good root ps fs
    · split
      · exact list_directory_op_good root ps fs
      · split
        · exact search_files_op_good root ps fs
        · split
          · exact delete_file_op_good root ps fs
          · exact goodOut_ok_err _ _ (function_not_supported_ne_invalid fname)

/-- **C3.**  For every operation name, body and filesystem: the handler
produces exactly one of a success-shaped result or an `{"error": ...}`
mapping (never both, never neither); and any exception raised during an
operation is caught at the dispatch boundary and surfaced as the payload
`{"error": <exception message>}` of an ordinary response instead of
propagating (lines 42-178). -/
theorem c3_exactly_one_result_shape (root fname : String) (body : Body) (fs : FS) :
    ShapeOK (handle_mcp_request root fname body fs).2 ∧
    (∀ ps fs' e, parseParams body = Except.ok ps →
      dispatch root fname ps fs = (fs', Except.error e) →
      handle_mcp_request root fname body fs = (fs', errObj e)) := by
  constructor
  · rw [handle_mcp_request]
    cases body with
    | invalid raw => exact shapeOK_err _
    | empty =>
      simp only [parseParams]
      cases hd : dispatch root fname [] fs with
      | mk fs' r =>
        have hg := dispatch_good root fname [] fs
        rw [hd] at hg
        cases r with
        | ok p =>
          rcases hg with ⟨p', hp', hs', _⟩ | ⟨e, he, _⟩
          · injection hp' with hp'
            rw [← hp'] at hs'
            exact hs'
          · cases he
        | error e => exact shapeOK_err _
    | valid ps =>
      simp only [parseParams]
      cases hd : dispatch root fname ps fs with
      | mk fs' r =>
        have hg := dispatch_good root fname ps fs
        rw [hd] at hg
        cases r with
        | ok p =>
          rcases hg with ⟨p', hp', hs', _⟩ | ⟨e, he, _⟩
          · injection hp' with hp'
            rw [← hp'] at hs'
            exact hs'
          · cases he
        | error e => exact shapeOK_err _
  · intro ps fs' e hparse hdisp
    rw [handle_mcp_request]
    cases body with
    | invalid raw => simp [parseParams] at hparse
    | empty =>
      rw [parseParams] at hparse
      injection hparse with h
      rw [← h] at hdisp
      simp only [parseParams]
      rw [hdisp]
    | valid ps' =>
      rw [parseParams] at hparse
      injection hparse with h
      rw [← h] at hdisp
      simp only [parseParams]
      rw [hdisp]

/-- Witness for C3: the shape property at one concrete request, and a
concrete exception (a `NotADirectoryError` from `makedirs` inside
`list_directory`) surfaced as the error payload of an ordinary
response. -/
theorem c3_exactly_one_result_shape_witness :
    ShapeOK (handle_mcp_request sbRoot "write_file" Body.empty fsSb).2 ∧
    handle_mcp_request sbRoot "list_directory"
        (Body.valid [("directory_path", JVal.str "f/sub")]) fsFileBlocked =
      (fsFileBlocked, errObj "[Errno 20] Not a directory: /tmp/sb/f") := by
  constructor
  · exact (c3_exactly_one_result_shape sbRoot "write_file" Body.empty fsSb).1
  · exact (c3_exactly_one_result_shape sbRoot "list_directory"
      (Body.valid [("directory_path", JVal.str "f/sub")]) fsFileBlocked).2
      [("directory_path", JVal.str "f/sub")] fsFileBlocked
      "[Errno 20] Not a directory: /tmp/sb/f" rfl rfl

/-- Witness for C8: with the sandbox root present, writing `e.txt` with
the empty string as content succeeds, while omitting `content` yields
the validation error. -/
theorem c8_write_file_validation_witness :
    dispatch sbRoot "write_file"
        [("filepath", JVal.str "e.txt"), ("content", JVal.str "")] fsSb =
      (fsSb.setEntry ["tmp", "sb", "e.txt"] (Entry.file ""),
        Except.ok (JOut.obj
          [("success", JOut.bool true), ("filepath", JOut.str "e.txt")])) ∧
    dispatch sbRoot "write_file" [("filepath", JVal.str "e.txt")] fsSb =
      (fsSb, Except.ok (errObj "content parameter is required")) := by
  constructor
  · exact (c8_write_file_validation sbRoot
      [("filepath", JVal.str "e.txt"), ("content", JVal.str "")] fsSb).2.2.2
      "e.txt" fsSb rfl (by decide) rfl rfl rfl
  · exact (c8_write_file_validation sbRoot
      [("filepath", JVal.str "e.txt")] fsSb).2.1 "e.txt" rfl (by decide) rfl

/-- Witness for C9: an empty-string `filepath` on `write_file` (even with
content present) and an empty-string `pattern` on `search_files` both
yield the corresponding required-parameter error with the state
unchanged. -/
theorem c9_empty_string_like_missing_witness :
    dispatch sbRoot "write_file"
        [("filepath", JVal.str ""), ("content", JVal.str "x")] fsSb =
      (fsSb, Except.ok (errObj "filepath parameter is required")) ∧
    dispatch sbRoot "search_files"
        [("directory_path", JVal.str "d"), ("pattern", JVal.str "")] fsSearch =
      (fsSearch, Except.ok (errObj "pattern parameter is required")) := by
  constructor
  · exact ((c9_empty_string_like_missing sbRoot
      [("filepath", JVal.str ""), ("content", JVal.str "x")] fsSb).1 (by decide)).1
  · exact (c9_empty_string_like_missing sbRoot
      [("directory_path", JVal.str "d"), ("pattern", JVal.str "")] fsSearch).2.2
      (by decide) (by decide)

/-! ## C10: empty body versus malformed body -/

/-- **C10.**  An empty request body is treated as an empty parameter
mapping, not as malformed input (`json.loads(body) if body else {}`,
line 48): for each of the five operations an empty body yields that
operation's missing-required-parameter error, an unknown operation
yields the unsupported-operation error, and the
`"Invalid JSON in request body"` payload is produced only when a
non-empty body fails to parse as JSON (lines 173-175). -/
theorem c10_empty_body_empty_params (root fname : String) (fs : FS) :
    handle_mcp_request root "write_file" Body.empty fs =
      (fs, errObj "filepath parameter is required") ∧
    handle_mcp_request root "read_file" Body.empty fs =
      (fs, errObj "filepath parameter is required") ∧
    handle_mcp_request root "list_directory" Body.empty fs =
      (fs, errObj "directory_path parameter is required") ∧
    handle_mcp_request root "search_files" Body.empty fs =
      (fs, errObj "directory_path parameter is required") ∧
    handle_mcp_request root "delete_file" Body.empty fs =
      (fs, errObj "filepath parameter is required") ∧
    (fname ∉ ["write_file", "read_file", "list_directory", "search_files",
        "delete_file"] →
      handle_mcp_request root fname Body.empty fs =
        (fs, errObj ("Function " ++ fname ++ " not supported"))) ∧
    (∀ body, (handle_mcp_request root fname body fs).2 =
        errObj "Invalid JSON in request body" →
      ∃ raw, body = Body.invalid raw) := by
  refine ⟨rfl, rfl, rfl, rfl, rfl, ?_, ?_⟩
  · intro hmem
    simp only [List.mem_cons, List.not_mem_nil, or_false, not_or] at hmem
    obtain ⟨h1, h2, h3, h4, h5⟩ := hmem
    rw [handle_mcp_request]
    simp only [parseParams]
    rw [dispatch, if_neg h1, if_neg h2, if_neg h3, if_neg h4, if_neg h5]
  · intro body hbody
    cases body with
    | invalid raw => exact ⟨raw, rfl⟩
    | empty =>
      exfalso
      rw [handle_mcp_request] at hbody
      simp only [parseParams] at hbody
      cases hd : dispatch root fname [] fs with
      | mk fs' r =>
        have hg := dispatch_good root fname [] fs
        rw [hd] at hg
        rw [hd] at hbody
        cases r with
        | ok p =>
          rcases hg with ⟨p', hp', _, hni⟩ | ⟨e, he, _⟩
          · injection hp' with hp'
            exact hni _ (by rw [← hp']; exact hbody) rfl
          · cases he
        | error e =>
          rcases hg with ⟨p', hp', _, _⟩ | ⟨e', he', hne'⟩
          · cases hp'
          · injection he' with he'
            rw [← he'] at hne'
            exact hne' (errObj_inj hbody)
    | valid ps =>
      exfalso
      rw [handle_mcp_request] at hbody
      simp only [parseParams] at hbody
      cases hd : dispatch root fname ps fs with
      | mk fs' r =>
        have hg := dispatch_good root fname ps fs
        rw [hd] at hg
        rw [hd] at hbody
        cases r with
        | ok p =>
          rcases hg with ⟨p', hp', _, hni⟩ | ⟨e, he, _⟩
          · injection hp' with hp'
            exact hni _ (by rw [← hp']; exact hbody) rfl
          · cases he
        | error e =>
          rcases hg with ⟨p', hp', _, _⟩ | ⟨e', he', hne'⟩
          · cases hp'
          · injection he' with he'
            rw [← he'] at hne'
            exact hne' (errObj_inj hbody)

/-- Witness for C10: the unsupported-operation branch for an unknown name
with an empty body, and the only-when direction applied to a concrete
invalid body. -/
theorem c10_empty_body_empty_params_witness :
    handle_mcp_request sbRoot "frobnicate" Body.empty fsSb =
      (fsSb, errObj "Function frobnicate not supported") ∧
    (∃ raw, (Body.invalid "not json") = Body.invalid raw) := by
  constructor
  · exact (c10_empty_body_empty_params sbRoot "frobnicate" fsSb).2.2.2.2.2.1
      (by decide)
  · exact (c10_empty_body_empty_params sbRoot "frobnicate" fsSb).2.2.2.2.2.2
      (Body.invalid "not json") rfl

/-! ## C4: list_directory auto-creates missing directories -/

/-- `makedirs` succeeds when no regular file is in the way. -/
theorem makedirsFrom_ok_of_no_file (l : List String) :
    ∀ (fs : FS) (base : List String),
      (∀ q, q ≠ [] → q <+: l → fs.isFileAt (base ++ q) = false) →
      ∃ fs', makedirsFrom fs base l = (fs', Except.ok ()) := by
  induction l with
  | nil => intro fs base _; exact ⟨fs, rfl⟩
  | cons s rest ih =>
    intro fs base hnf
    rw [makedirsFrom]
    cases hlk : fs.lookup (base ++ [s]) with
    | none =>
      simp only
      refine ih (fs.setEntry (base ++ [s]) Entry.dir) (base ++ [s]) ?_
      intro q hq hpre
      rw [FS.isFileAt, lookup_setEntry, if_neg]
      · have := hnf (s :: q) (by simp) (by simpa using hpre)
        rw [FS.isFileAt] at this
        have harr : base ++ [s] ++ q = base ++ s :: q := by simp
        rw [harr]
        exact this
      · intro he
        have := congrArg List.length he
        simp at this
        exact hq this
    | some ent =>
      cases ent with
      | dir =>
        simp only
        refine ih fs (base ++ [s]) ?_
        intro q hq hpre
        have := hnf (s :: q) (by simp) (by simpa using hpre)
        have harr : base ++ [s] ++ q = base ++ s :: q := by simp
        rw [harr]
        exact this
      | file c =>
        exfalso
        have := hnf [s] (by simp) (by simp)
        rw [FS.isFileAt, hlk] at this
        simp at this


/-- Every entry after `makedirs` is an old entry or a directory created
at a non-empty prefix of the target. -/
theorem makedirsFrom_entries_sub (l : List String) :
    ∀ (fs : FS) (base : List String) (fs' : FS) (r : Except String Unit),
      makedirsFrom fs base l = (fs', r) →
      ∀ x ∈ fs'.entries, x ∈ fs.entries ∨
        (x.2 = Entry.dir ∧ ∃ q, q ≠ [] ∧ q <+: l ∧ x.1 = base ++ q) := by
  induction l with
  | nil =>
    intro fs base fs' r h x hx
    rw [makedirsFrom] at h
    injection h with h1 _
    rw [← h1] at hx
    exact Or.inl hx
  | cons s rest ih =>
    intro fs base fs' r h x hx
    rw [makedirsFrom] at h
    cases hlk : fs.lookup (base ++ [s]) with
    | none =>
      rw [hlk] at h
      simp only at h
      rcases ih _ _ _ _ h x hx with hmem | ⟨hd, q, hq, hpre, heq⟩
      · rw [FS.setEntry] at hmem
        rcases List.mem_cons.mp hmem with heq | hmem
        · refine Or.inr ⟨by rw [heq], [s], by simp, by simp, by rw [heq]⟩
        · exact Or.inl (List.mem_of_mem_filter hmem)
      · refine Or.inr ⟨hd, s :: q, by simp, by simpa using hpre, by simp [heq]⟩
    | some ent =>
      cases ent with
      | dir =>
        rw [hlk] at h
        simp only at h
        rcases ih _ _ _ _ h x hx with hmem | ⟨hd, q, hq, hpre, heq⟩
        · exact Or.inl hmem
        · refine Or.inr ⟨hd, s :: q, by simp, by simpa using hpre, by simp [heq]⟩
      | file c =>
        rw [hlk] at h
        have hfs : fs' = fs := by
          by_cases hr : rest = []
          · rw [if_pos hr] at h
            injection h with h1 _
            exact h1.symm
          · rw [if_neg hr] at h
            injection h with h1 _
            exact h1.symm
        rw [hfs] at hx
        exact Or.inl hx

/-- **C4 counterexample.**  With a regular file `f` directly under the
sandbox root, `directory_path = "f/sub"` resolves to a non-existent
path, yet `list_directory` does not create it and does not return an
empty item list: `os.makedirs` raises `NotADirectoryError`, which
surfaces as an error payload, and the directory still does not exist
afterwards. -/
theorem c4_counterexample_file_in_the_way :
    fsFileBlocked.existsAt (toSegs (resolve sbRoot "f/sub")) = false ∧
    handle_mcp_request sbRoot "list_directory"
        (Body.valid [("directory_path", JVal.str "f/sub")]) fsFileBlocked =
      (fsFileBlocked, errObj "[Errno 20] Not a directory: /tmp/sb/f") ∧
    fsFileBlocked.existsAt (toSegs (resolve sbRoot "f/sub")) = false := by
  exact ⟨rfl, rfl, rfl⟩

/-- **C4** (amended: provided no ancestor of the resolved path is an
existing regular file — `os.makedirs` raises otherwise, as the
counterexample shows).  On a well-formed filesystem, for every
`directory_path` whose resolved path does not exist, `list_directory`
creates that directory (including parents) and returns an empty items
list, and a second identical call leaves the state unchanged and
returns the same empty list. -/
theorem c4_list_directory_creates_missing (root dp : String) (ps : Params) (fs : FS)
    (hdp : getStr ps "directory_path" = some dp) (hne : dp ≠ "")
    (hwf : fs.WF)
    (hnex : fs.existsAt (toSegs (resolve root dp)) = false)
    (hanc : ∀ q, q ≠ [] → q <+: toSegs (resolve root dp) → fs.isFileAt q = false) :
    ∃ fs₁,
      dispatch root "list_directory" ps fs =
        (fs₁, Except.ok (JOut.obj
          [("items", JOut.arr []), ("directory_path", JOut.str dp)])) ∧
      fs₁.isDirAt (toSegs (resolve root dp)) = true ∧
      dispatch root "list_directory" ps fs₁ =
        (fs₁, Except.ok (JOut.obj
          [("items", JOut.arr []), ("directory_path", JOut.str dp)])) := by
  have hb : isBlank (getStr ps "directory_path") = false := by
    rw [hdp, isBlank]; simpa using hne
  have hsafene : toSegs (resolve root dp) ≠ [] := by
    intro he
    rw [FS.existsAt, he] at hnex
    simp at hnex
  have hlknone : fs.lookup (toSegs (resolve root dp)) = none := by
    rw [FS.existsAt] at hnex
    simp only [Bool.or_eq_false_iff] at hnex
    exact Option.not_isSome_iff_eq_none.mp (by simp [hnex.2])
  have hndir : fs.isDirAt (toSegs (resolve root dp)) = false := by
    rw [FS.isDirAt, hlknone]
    simpa using hsafene
  obtain ⟨fs₁, hmk⟩ := makedirsFrom_ok_of_no_file (toSegs (resolve root dp)) fs []
    (fun q hq hpre => by simpa using hanc q hq hpre)
  have hdir₁ : fs₁.isDirAt (toSegs (resolve root dp)) = true := by
    have := makedirsFrom_ok_isDir (toSegs (resolve root dp)) fs [] fs₁ ()
      (by rw [FS.isDirAt]; simp) hmk
    simpa using this
  have hchild : ∀ gs : FS, gs.entries = fs₁.entries →
      gs.childNames (toSegs (resolve root dp)) = [] := by
    intro gs hgs
    rw [FS.childNames, hgs]
    rw [List.filterMap_eq_nil_iff]
    intro x hx
    rcases makedirsFrom_entries_sub (toSegs (resolve root dp)) fs [] fs₁
        (Except.ok ()) hmk x hx with hmem | ⟨_, q, hq, hpre, heq⟩
    · cases hgl : x.1.getLast? with
      | none => rfl
      | some n =>
        simp only
        rw [if_neg]
        intro hdl
        have hxne : x.1 ≠ [] := by
          intro he
          rw [he] at hgl
          simp at hgl
        have hx1 : x.1 = toSegs (resolve root dp) ++ [n] := by
          conv_lhs => rw [← List.dropLast_append_getLast hxne]
          rw [hdl]
          congr 1
          rw [List.getLast?_eq_getLast x.1 hxne] at hgl
          injection hgl with hgl
          rw [hgl]
        have hlen : (toSegs (resolve root dp)).length < x.1.length := by
          rw [hx1]; simp
        have htake : x.1.take (toSegs (resolve root dp)).length =
            toSegs (resolve root dp) := by
          rw [hx1, List.take_append_of_le_length (le_refl _), List.take_length]
        have := hwf x hmem (toSegs (resolve root dp)).length hlen
          (by cases hseg : toSegs (resolve root dp) with
            | nil => exact absurd hseg hsafene
            | cons a t => simp)
        rw [htake] at this
        rw [FS.isDirAt, hlknone] at this
        simp [hsafene] at this
    · cases hgl : x.1.getLast? with
      | none => rfl
      | some n =>
        simp only
        rw [if_neg]
        intro hdl
        have hxne : x.1 ≠ [] := by
          intro he
          rw [he] at hgl
          simp at hgl
        have hlen1 : x.1.length = (toSegs (resolve root dp)).length + 1 := by
          conv_lhs => rw [← List.dropLast_append_getLast hxne]
          rw [hdl]
          simp
        have hlen2 : x.1.length ≤ (toSegs (resolve root dp)).length := by
          rw [heq]
          simpa using List.IsPrefix.length_le hpre
        omega
  refine ⟨fs₁, ?_, hdir₁, ?_⟩
  · rw [dispatch, if_neg (by decide), if_neg (by decide), if_pos rfl]
    rw [list_directory_op, hb]
    simp only [Bool.false_eq_true, if_false]
    rw [hdp]
    simp only [Option.getD_some]
    rw [if_neg (by simp [hndir]), FS.makedirs, hmk]
    simp only
    rw [hchild fs₁ rfl]
    simp
  · rw [dispatch, if_neg (by decide), if_neg (by decide), if_pos rfl]
    rw [list_directory_op, hb]
    simp only [Bool.false_eq_true, if_false]
    rw [hdp]
    simp only [Option.getD_some]
    rw [if_pos hdir₁]
    simp only
    rw [hchild fs₁ rfl]
    simp

/-- Reduce a property of all prefixes of a concrete list to a decidable
bounded check over prefix lengths. -/
theorem forall_prefix_of_take (l : List String) (P : List String → Prop)
    (h : ∀ i ≤ l.length, P (l.take i)) : ∀ q, q <+: l → P q := by
  intro q hpre
  rw [List.prefix_iff_eq_take.mp hpre]
  exact h q.length (List.IsPrefix.length_le hpre)

/-- Witness for C4: listing the missing directory `newdir` under the
sandbox root creates it, returns no items, and a second call is
identical. -/
theorem c4_list_directory_creates_missing_witness :
    ∃ fs₁,
      dispatch sbRoot "list_directory" [("directory_path", JVal.str "newdir")] fsSb =
        (fs₁, Except.ok (JOut.obj
          [("items", JOut.arr []), ("directory_path", JOut.str "newdir")])) ∧
      fs₁.isDirAt (toSegs (resolve sbRoot "newdir")) = true ∧
      dispatch sbRoot "list_directory" [("directory_path", JVal.str "newdir")] fs₁ =
        (fs₁, Except.ok (JOut.obj
          [("items", JOut.arr []), ("directory_path", JOut.str "newdir")])) := by
  refine c4_list_directory_creates_missing sbRoot "newdir"
    [("directory_path", JVal.str "newdir")] fsSb rfl (by decide) (by decide) rfl ?_
  intro q hq hpre
  exact forall_prefix_of_take (toSegs (resolve sbRoot "newdir"))
    (fun r => fsSb.isFileAt r = false) (by decide) q hpre

/-! ## C6: search_files glob behaviour

Character-level lemmas describing the shape of the resolver's output,
needed to track what `glob.glob(os.path.join(safe_path, pattern))` does
for patterns that contain no path separator. -/

theorem splitSeg_ne_nil (cs : List Char) : splitSeg cs ≠ [] := by
  cases cs with
  | nil => simp [splitSeg]
  | cons c rest =>
    rw [splitSeg]
    by_cases hc : c = '/'
    · rw [if_pos hc]; simp
    · rw [if_neg hc]
      cases h : splitSeg rest with
      | nil => simp
      | cons s ss => simp

theorem mem_splitSeg_no_slash (cs : List Char) :
    ∀ l ∈ splitSeg cs, '/' ∉ l := by
  induction cs with
  | nil =>
    intro l hl
    rw [splitSeg] at hl
    simp at hl
    simp [hl]
  | cons c rest ih =>
    intro l hl
    rw [splitSeg] at hl
    by_cases hc : c = '/'
    · rw [if_pos hc] at hl
      rcases List.mem_cons.mp hl with he | hm
      · simp [he]
      · exact ih l hm
    · rw [if_neg hc] at hl
      cases h : splitSeg rest with
      | nil => exact absurd h (splitSeg_ne_nil rest)
      | cons s ss =>
        rw [h] at hl
        rcases List.mem_cons.mp hl with he | hm
        · rw [he]
          intro hmem
          rcases List.mem_cons.mp hmem with he2 | hm2
          · exact hc he2.symm
          · exact ih s (by rw [h]; exact List.mem_cons_self s ss) hm2
        · exact ih l (by rw [h]; exact List.mem_cons_of_mem s hm)

theorem splitSeg_append (a b : List Char) :
    splitSeg (a ++ '/' :: b) = splitSeg a ++ splitSeg b := by
  induction a with
  | nil =>
    rw [List.nil_append, splitSeg]
    simp [splitSeg]
  | cons c rest ih =>
    rw [List.cons_append, splitSeg]
    by_cases hc : c = '/'
    · rw [if_pos hc, ih, splitSeg, if_pos hc]
      simp
    · rw [if_neg hc, ih]
      cases h : splitSeg rest with
      | nil => exact absurd h (splitSeg_ne_nil rest)
      | cons s ss =>
        rw [splitSeg, if_neg hc, h]
        simp

theorem splitSeg_no_slash (cs : List Char) (h : '/' ∉ cs) : splitSeg cs = [cs] := by
  induction cs with
  | nil => rfl
  | cons c rest ih =>
    rw [splitSeg, if_neg (by intro he; exact h (by rw [he]; exact List.mem_cons_self _ _))]
    rw [ih (fun hm => h (List.mem_cons_of_mem c hm))]

theorem splitSeg_join (l : List (List Char)) (hne : l ≠ [])
    (h : ∀ x ∈ l, x ≠ [] ∧ '/' ∉ x) : splitSeg (joinSegsChars l) = l := by
  induction l with
  | nil => exact absurd rfl hne
  | cons x rest ih =>
    cases rest with
    | nil =>
      rw [joinSegsChars]
      exact splitSeg_no_slash x (h x (List.mem_cons_self _ _)).2
    | cons y ys =>
      rw [joinSegsChars, splitSeg_append]
      rw [splitSeg_no_slash x (h x (List.mem_cons_self _ _)).2]
      rw [ih (by simp) (fun z hz => h z (List.mem_cons_of_mem x hz))]
      rfl

theorem joinSegsChars_ne_nil (l : List (List Char)) (hne : l ≠ [])
    (h : ∀ x ∈ l, x ≠ []) : joinSegsChars l ≠ [] := by
  cases l with
  | nil => exact absurd rfl hne
  | cons x rest =>
    cases rest with
    | nil =>
      rw [joinSegsChars]
      exact h x (List.mem_cons_self _ _)
    | cons y ys =>
      rw [joinSegsChars]
      intro hnil
      have := congrArg List.length hnil
      simp only [List.length_append, List.length_cons, List.length_nil] at this
      omega

theorem joinSegsChars_getLast_ne_slash (l : List (List Char)) (hne : l ≠ [])
    (h : ∀ x ∈ l, x ≠ [] ∧ '/' ∉ x) :
    ∀ c, (joinSegsChars l).getLast? = some c → c ≠ '/' := by
  induction l with
  | nil => exact absurd rfl hne
  | cons x rest ih =>
    cases rest with
    | nil =>
      intro c hc
      rw [joinSegsChars] at hc
      have hxne := (h x (List.mem_cons_self _ _)).1
      rw [List.getLast?_eq_getLast_of_ne_nil hxne] at hc
      injection hc with hc
      intro he
      rw [he] at hc
      exact (h x (List.mem_cons_self _ _)).2 (by rw [← hc]; exact List.getLast_mem hxne)
    | cons y ys =>
      intro c hc
      rw [joinSegsChars] at hc
      have hjoin : joinSegsChars (y :: ys) ≠ [] :=
        joinSegsChars_ne_nil (y :: ys) (by simp)
          (fun z hz => (h z (List.mem_cons_of_mem x hz)).1)
      rw [List.getLast?_append_cons] at hc
      have hform : ('/' :: joinSegsChars (y :: ys)) = ['/'] ++ joinSegsChars (y :: ys) := rfl
      rw [hform, List.getLast?_append_of_ne_nil _ hjoin] at hc
      exact ih (by simp) (fun z hz => h z (List.mem_cons_of_mem x hz)) c hc

theorem dropWhile_head_false (p : Char → Bool) :
    ∀ (l : List Char) (c : Char), (l.dropWhile p).head? = some c → p c = false := by
  intro l
  induction l with
  | nil => intro c hc; simp [List.dropWhile] at hc
  | cons a t ih =>
    intro c hc
    rw [List.dropWhile] at hc
    by_cases ha : p a
    · rw [ha] at hc
      exact ih c hc
    · rw [Bool.eq_false_iff.mpr ha] at hc
      simp only [List.head?_cons, Option.some.injEq] at hc
      rw [← hc]
      exact Bool.eq_false_iff.mpr ha

theorem foldl_normStep_clean (k : Nat) (hk : 1 ≤ k) :
    ∀ (comps : List (List Char)), (∀ c ∈ comps, '/' ∉ c) →
      ∀ acc, (∀ l ∈ acc, CleanSeg l) →
        ∀ l ∈ comps.foldl (normStep k) acc, CleanSeg l := by
  intro comps
  induction comps with
  | nil => intro _ acc hacc l hl; exact hacc l hl
  | cons c rest ih =>
    intro h acc hacc l hl
    rw [List.foldl_cons] at hl
    refine ih (fun x hx => h x (List.mem_cons_of_mem _ hx)) (normStep k acc c) ?_ l hl
    intro x hx
    rw [normStep] at hx
    split at hx
    · exact hacc x hx
    · rename_i hng
      split at hx
      · rename_i hcond
        rcases List.mem_append.mp hx with hmem | hmem
        · exact hacc x hmem
        · have hxc : x = c := by simpa using hmem
          subst hxc
          push_neg at hng
          have hdd : x ≠ ['.', '.'] := by
            rcases hcond with hne | ⟨hk0, _⟩ | hlast
            · exact hne
            · omega
            · exfalso
              have hmem2 : ['.', '.'] ∈ acc := by
                have hane : acc ≠ [] := by
                  intro he
                  rw [he] at hlast
                  simp at hlast
                rw [List.getLast?_eq_getLast_of_ne_nil hane] at hlast
                injection hlast with hlast
                rw [← hlast]
                exact List.getLast_mem hane
              exact (hacc _ hmem2).2.2.1 rfl
          exact ⟨hng.1, hng.2, hdd, h x (List.mem_cons_self _ _)⟩
      · exact hacc x (List.dropLast_subset _ hx)

theorem initialSlashes_pos (cs : List Char) (h : cs.head? = some '/') :
    1 ≤ initialSlashes cs := by
  rw [initialSlashes.eq_def]
  split
  · omega
  · omega
  · omega
  · rename_i h1 h2 h3
    exfalso
    cases cs with
    | nil => simp at h
    | cons a t =>
      simp only [List.head?_cons, Option.some.injEq] at h
      exact h3 t (by rw [h])

theorem normpathChars_shape (cs : List Char) (h : cs.head? = some '/') :
    ∃ nc, (∀ l ∈ nc, CleanSeg l) ∧
      normpathChars cs =
        List.replicate (initialSlashes cs) '/' ++ joinSegsChars nc := by
  have hne : cs ≠ [] := by
    intro he
    rw [he] at h
    simp at h
  have hk := initialSlashes_pos cs h
  refine ⟨(splitSeg cs).foldl (normStep (initialSlashes cs)) [], ?_, ?_⟩
  · exact foldl_normStep_clean (initialSlashes cs) hk (splitSeg cs)
      (mem_splitSeg_no_slash cs) [] (by simp)
  · rw [normpathChars, if_neg hne]
    rw [if_neg]
    intro hres
    have := congrArg List.length hres
    simp only [List.length_append, List.length_replicate, List.length_nil] at this
    omega

theorem toSegsL_replicate_slash (k : Nat) (rest : List Char) :
    toSegsL (List.replicate k '/' ++ rest) = toSegsL rest := by
  induction k with
  | zero => rw [List.replicate_zero, List.nil_append]
  | succ n ih =>
    rw [List.replicate_succ, List.cons_append, toSegsL, splitSeg]
    simp only [reduceIte]
    rw [List.filterMap_cons]
    simp only [reduceIte]
    exact ih

theorem toSegsL_join_clean (nc : List (List Char))
    (h : ∀ l ∈ nc, l ≠ [] ∧ '/' ∉ l) :
    toSegsL (joinSegsChars nc) = nc.map (fun l => String.mk l) := by
  cases hn : nc with
  | nil => rfl
  | cons x rest =>
    rw [toSegsL, splitSeg_join (x :: rest) (by simp) (by rw [← hn]; exact h)]
    rw [List.filterMap_eq_map_iff_forall_eq_some.mpr]
    intro l hl
    rw [if_neg (h l (by rw [hn]; exact hl)).1]

theorem string_mk_data (s : String) : String.mk s.data = s := rfl

theorem data_ne_nil_of_ne_empty (s : String) (h : s ≠ "") : s.data ≠ [] := by
  intro hd
  apply h
  rw [← string_mk_data s, hd]

theorem lstripSlashes_head (dp : String) :
    ∀ c, (lstripSlashes dp).data.head? = some c → c ≠ '/' := by
  intro c hc
  rw [lstripSlashes] at hc
  have := dropWhile_head_false (fun c => c = '/') dp.data c hc
  simpa using this

theorem os_path_join_head_slash (a b : String) (ha : a.data.head? = some '/')
    (hb : ∀ c, b.data.head? = some c → c ≠ '/') :
    (os_path_join a b).data.head? = some '/' := by
  rw [os_path_join]
  split
  · rename_i heq
    exact absurd rfl (hb '/' (by rw [heq]; rfl))
  · split
    · rename_i hnil
      rw [hnil] at ha
      simp at ha
    · cases had : a.data with
      | nil => rw [had] at ha; simp at ha
      | cons c t =>
        rw [had] at ha
        simp only [List.head?_cons, Option.some.injEq] at ha
        subst ha
        split
        · rw [String.data_append, had]
          rfl
        · rw [String.data_append, String.data_append, had]
          rfl

/-- Shape of the resolver's output for an absolute sandbox root: a block
of leading slashes followed by clean components, whose `toSegs` are
exactly those components. -/
theorem resolve_shape (root dp : String) (hroot : root.data.head? = some '/') :
    ∃ nc, (∀ l ∈ nc, CleanSeg l) ∧
      (resolve root dp).data =
        List.replicate (initialSlashes (os_path_join root (lstripSlashes dp)).data) '/' ++
          joinSegsChars nc ∧
      toSegs (resolve root dp) = nc.map (fun l => String.mk l) := by
  have hh : (os_path_join root (lstripSlashes dp)).data.head? = some '/' :=
    os_path_join_head_slash root (lstripSlashes dp) hroot (lstripSlashes_head dp)
  obtain ⟨nc, hclean, heq⟩ := normpathChars_shape _ hh
  have hdata : (resolve root dp).data =
      List.replicate (initialSlashes (os_path_join root (lstripSlashes dp)).data) '/' ++
        joinSegsChars nc := by
    rw [resolve, normpath]
    exact heq
  refine ⟨nc, hclean, hdata, ?_⟩
  rw [toSegs, hdata, toSegsL_replicate_slash]
  exact toSegsL_join_clean nc (fun l hl => ⟨(hclean l hl).1, (hclean l hl).2.2.2⟩)

/-- Every component of a resolved path is non-empty and distinct from `.`
and `..` (for an absolute sandbox root). -/
theorem resolve_segs_clean (root dp : String) (hroot : root.data.head? = some '/') :
    ∀ s ∈ toSegs (resolve root dp), s ≠ "" ∧ s ≠ "." ∧ s ≠ ".." := by
  obtain ⟨nc, hclean, _, hsegs⟩ := resolve_shape root dp hroot
  rw [hsegs]
  intro s hs
  obtain ⟨l, hl, rfl⟩ := List.mem_map.mp hs
  have hc := hclean l hl
  refine ⟨?_, ?_, ?_⟩
  · intro he
    exact hc.1 (by rw [show ("" : String) = String.mk [] from rfl] at he; injection he)
  · intro he
    exact hc.2.1 (by rw [show ("." : String) = String.mk ['.'] from rfl] at he; injection he)
  · intro he
    exact hc.2.2.1
      (by rw [show (".." : String) = String.mk ['.', '.'] from rfl] at he; injection he)

theorem getLast?_replicate_slash (k : Nat) (hk : 1 ≤ k) :
    (List.replicate k '/').getLast? = some '/' := by
  induction k with
  | zero => omega
  | succ n ih =>
    rw [List.replicate_succ]
    cases hn : n with
    | zero => rfl
    | succ m =>
      rw [hn] at ih
      rw [List.replicate_succ, List.getLast?_cons_cons, ← List.replicate_succ]
      exact ih (by omega)

theorem toSegsL_append_slash (a b : List Char) :
    toSegsL (a ++ '/' :: b) = toSegsL a ++ toSegsL b := by
  rw [toSegsL, splitSeg_append, List.filterMap_append]
  rfl

/-- Decomposition of `os.path.join(safe_path, pattern)` for a
separator-free pattern: its components are the resolved directory's
components followed by the pattern. -/
theorem searchSegs_decomp (root dp pat : String) (hroot : root.data.head? = some '/')
    (hpatne : pat ≠ "") (hslash : '/' ∉ pat.data) :
    toSegs (os_path_join (resolve root dp) pat) = toSegs (resolve root dp) ++ [pat] := by
  obtain ⟨nc, hclean, hdata, hsegs⟩ := resolve_shape root dp hroot
  have hk := initialSlashes_pos _ (os_path_join_head_slash root (lstripSlashes dp)
    hroot (lstripSlashes_head dp))
  have hpd : pat.data ≠ [] := data_ne_nil_of_ne_empty pat hpatne
  have htoSegs_pat : toSegsL pat.data = [pat] := by
    rw [toSegsL, splitSeg_no_slash pat.data hslash, List.filterMap_cons, if_neg hpd]
    rw [string_mk_data]
    rfl
  rw [os_path_join]
  split
  · rename_i heq
    exact absurd (by rw [heq]; exact List.mem_cons_self _ _) hslash
  · split
    · rename_i hnil
      exfalso
      rw [hdata] at hnil
      have := congrArg List.length hnil
      simp only [List.length_append, List.length_replicate, List.length_nil] at this
      omega
    · cases nc with
      | nil =>
        have hjnil : joinSegsChars ([] : List (List Char)) = [] := rfl
        have hlastslash : (resolve root dp).data.getLast? = some '/' := by
          rw [hdata, hjnil, List.append_nil]
          exact getLast?_replicate_slash _ hk
        rw [if_pos hlastslash]
        rw [hsegs]
        rw [toSegs, String.data_append, hdata, hjnil, List.append_nil]
        rw [toSegsL_replicate_slash, htoSegs_pat]
        rfl
      | cons x rest =>
        have hjne : joinSegsChars (x :: rest) ≠ [] :=
          joinSegsChars_ne_nil _ (by simp) (fun z hz => (hclean z hz).1)
        have hlast : (resolve root dp).data.getLast? =
            some ((joinSegsChars (x :: rest)).getLast hjne) := by
          rw [hdata, List.getLast?_append_of_ne_nil _ hjne]
          exact List.getLast?_eq_getLast_of_ne_nil hjne
        have hcne : (joinSegsChars (x :: rest)).getLast hjne ≠ '/' :=
          joinSegsChars_getLast_ne_slash (x :: rest) (by simp)
            (fun z hz => ⟨(hclean z hz).1, (hclean z hz).2.2.2⟩) _
            (List.getLast?_eq_getLast_of_ne_nil hjne)
        rw [if_neg]
        · rw [toSegs, toSegs, String.data_append, String.data_append]
          rw [show ("/" : String).data = ['/'] from rfl, List.append_assoc]
          rw [show (['/'] ++ pat.data : List Char) = '/' :: pat.data from rfl]
          rw [toSegsL_append_slash, htoSegs_pat]
        · intro hcontra
          rw [hlast] at hcontra
          injection hcontra with hcontra
          exact hcne hcontra

theorem resolveDots_aux (l : List String)
    (h : ∀ s ∈ l, s ≠ "" ∧ s ≠ "." ∧ s ≠ "..") :
    ∀ acc, l.foldl
      (fun acc s =>
        if s = "" ∨ s = "." then acc
        else if s = ".." then acc.dropLast
        else acc ++ [s]) acc = acc ++ l := by
  induction l with
  | nil => intro acc; simp
  | cons s rest ih =>
    intro acc
    rw [List.foldl_cons]
    have hs := h s (List.mem_cons_self _ _)
    rw [if_neg (by simp [hs.1, hs.2.1]), if_neg hs.2.2]
    rw [ih (fun x hx => h x (List.mem_cons_of_mem _ hx)) (acc ++ [s])]
    simp

theorem resolveDots_eq_self (l : List String)
    (h : ∀ s ∈ l, s ≠ "" ∧ s ≠ "." ∧ s ≠ "..") : resolveDots l = l := by
  rw [resolveDots, resolveDots_aux l h []]
  rfl

theorem glob1_mem_childNames (fs : FS) (d : List String) (pat : String)
    (dironly : Bool) (n : String) (hn : n ∈ glob1 fs d pat dironly) :
    n ∈ fs.childNames d := by
  simp only [glob1] at hn
  replace hn := List.mem_of_mem_filter hn
  split at hn
  · split at hn
    · replace hn := List.mem_of_mem_filter hn
      split at hn
      · exact hn
      · simp at hn
    · split at hn
      · exact hn
      · simp at hn
  · replace hn := List.mem_of_mem_filter hn
    split at hn
    · replace hn := List.mem_of_mem_filter hn
      split at hn
      · exact hn
      · simp at hn
    · split at hn
      · exact hn
      · simp at hn

theorem lookup_isSome_of_childName (fs : FS) (p : List String) (n : String)
    (h : n ∈ fs.childNames p) : (fs.lookup (p ++ [n])).isSome := by
  rw [FS.childNames] at h
  obtain ⟨x, hx, hfx⟩ := List.mem_filterMap.mp h
  cases hgl : x.1.getLast? with
  | none => rw [hgl] at hfx; simp at hfx
  | some m =>
    rw [hgl] at hfx
    simp only at hfx
    split at hfx
    · rename_i hdl
      injection hfx with hfx
      have hxne : x.1 ≠ [] := by
        intro he
        rw [he] at hgl
        simp at hgl
      have hx1 : x.1 = p ++ [n] := by
        conv_lhs => rw [← List.dropLast_append_getLast hxne]
        rw [hdl]
        congr 1
        rw [List.getLast?_eq_getLast_of_ne_nil hxne] at hgl
        injection hgl with hgl
        rw [hgl, hfx]
      rw [FS.lookup]
      have hfind : (fs.entries.find? (fun e => e.1 = p ++ [n])).isSome := by
        rw [List.find?_isSome]
        exact ⟨x, hx, by simp [hx1]⟩
      cases hfo : fs.entries.find? (fun e => e.1 = p ++ [n]) with
      | none => rw [hfo] at hfind; simp at hfind
      | some y => rfl
    · cases hfx

theorem iglobF_succ_ne_nil (fs : FS) (n : Nat) (dironly : Bool)
    (segs : List String) (hne : segs ≠ []) :
    iglobF fs (n + 1) dironly segs =
      if ¬ segs.any hasMagicStr then
        if fs.lexistsAt segs then [segs] else []
      else
        let dirname := segs.dropLast
        let basename := segs.getLastD ""
        let dirs :=
          if dirname.any hasMagicStr then iglobF fs n true dirname else [dirname]
        if hasMagicStr basename then
          dirs.flatMap (fun d => (glob1 fs d basename dironly).map (fun m => d ++ [m]))
        else
          dirs.flatMap (fun d =>
            if fs.lexistsAt (d ++ [basename]) then [d ++ [basename]] else []) := by
  cases segs with
  | nil => exact absurd rfl hne
  | cons a rest => rfl

/-- `glob.glob(safe + "/" + pattern)` for a separator-free pattern over a
metacharacter-free directory: a magic pattern filters the directory's
children, a literal pattern is an existence probe. -/
theorem globSegs_concat_cases (fs : FS) (safe : List String) (pat : String)
    (hnm : ∀ s ∈ safe, hasMagicStr s = false) :
    globSegs fs (safe ++ [pat]) =
      if hasMagicStr pat then
        (glob1 fs safe pat false).map (fun m => safe ++ [m])
      else if fs.lexistsAt (safe ++ [pat]) then [safe ++ [pat]] else [] := by
  have hsafeany : safe.any hasMagicStr = false := by
    rw [List.any_eq_false]
    intro s hs
    simp [hnm s hs]
  have hany : (safe ++ [pat]).any hasMagicStr = hasMagicStr pat := by
    rw [List.any_append, hsafeany]
    simp
  have hlen : (safe ++ [pat]).length = safe.length + 1 := by simp
  rw [globSegs, hlen, iglobF_succ_ne_nil fs safe.length false (safe ++ [pat]) (by simp)]
  rw [hany]
  dsimp only
  rw [List.dropLast_concat]
  rw [show (safe ++ [pat]).getLastD "" = pat from List.getLastD_concat "" pat safe]
  rw [hsafeany]
  simp only [Bool.false_eq_true, if_false]
  by_cases hp : hasMagicStr pat
  · rw [if_neg (by simp [hp])]
    rw [if_pos hp, if_pos hp]
    simp
  · rw [if_pos (by simp [hp]), if_neg hp]

/-- **C6 counterexample.**  The claim fails for slash-containing patterns:
in a directory `d` containing `a.txt`, `b.log` and `sub/c.txt`, the
pattern `sub/c.txt` matches — `glob` works on
`os.path.join(safe_path, pattern)` — and the returned match
`d/sub/c.txt` is not a path of any immediate child of the resolved
directory. -/
theorem c6_counterexample_slash_pattern :
    (dispatch sbRoot "search_files"
        [("directory_path", JVal.str "d"), ("pattern", JVal.str "sub/c.txt")]
        fsSearch).2 =
      Except.ok (JOut.obj
        [("matches", JOut.arr [JOut.str "d/sub/c.txt"]),
         ("pattern", JOut.str "sub/c.txt"),
         ("directory_path", JOut.str "d")]) ∧
    (∀ n ∈ fsSearch.childNames (toSegs (resolve sbRoot "d")),
      "d/sub/c.txt" ≠ relpathSegs (toSegs (resolve sbRoot "d") ++ [n]) (toSegs sbRoot)) := by
  constructor
  · rfl
  · decide

/-- **C6** (amended: for patterns without a path separator that are not
`.` or `..`, searched in a resolved directory whose own components carry
no glob metacharacters — a slash in the pattern or a metacharacter in
the directory path makes `glob` look elsewhere, as the counterexample
shows).  Every returned match is an immediate child of the resolved
directory, reported as `os.path.relpath(match, TEMP_DIR)`, i.e. relative
to the sandbox root — not absolute and not relative to
`directory_path`. -/
theorem c6_search_files_matches (root dp pat : String) (ps : Params) (fs : FS)
    (hroot : root.data.head? = some '/')
    (hdp : getStr ps "directory_path" = some dp) (hdpne : dp ≠ "")
    (hpat : getStr ps "pattern" = some pat) (hpatne : pat ≠ "")
    (hslash : '/' ∉ pat.data) (hdot : pat ≠ ".") (hddot : pat ≠ "..")
    (hdir : fs.isDirAt (toSegs (resolve root dp)) = true)
    (hnomagic : ∀ s ∈ toSegs (resolve root dp), hasMagicStr s = false) :
    ∃ rels : List String,
      dispatch root "search_files" ps fs =
        (fs, Except.ok (JOut.obj
          [("matches", JOut.arr (rels.map JOut.str)),
           ("pattern", JOut.str pat),
           ("directory_path", JOut.str dp)])) ∧
      ∀ m ∈ rels, ∃ n,
        (fs.lookup (toSegs (resolve root dp) ++ [n])).isSome ∧
        m = relpathSegs (toSegs (resolve root dp) ++ [n]) (toSegs root) := by
  have hb1 : isBlank (some dp) = false := by
    rw [isBlank]; simpa using hdpne
  have hb2 : isBlank (some pat) = false := by
    rw [isBlank]; simpa using hpatne
  rw [dispatch, if_neg (by decide), if_neg (by decide), if_neg (by decide), if_pos rfl]
  rw [search_files_op, hdp, hpat, hb1, hb2]
  simp only [Bool.false_eq_true, if_false, Option.getD_some]
  rw [if_neg (by simp [hdir])]
  rw [searchSegs_decomp root dp pat hroot hpatne hslash]
  rw [globSegs_concat_cases fs _ pat hnomagic]
  refine ⟨_, rfl, ?_⟩
  intro m hm
  rw [List.mem_map] at hm
  obtain ⟨mm, hmm, rfl⟩ := hm
  by_cases hp : hasMagicStr pat
  · rw [if_pos hp] at hmm
    rw [List.mem_map] at hmm
    obtain ⟨n, hn, rfl⟩ := hmm
    exact ⟨n, lookup_isSome_of_childName fs _ n (glob1_mem_childNames fs _ pat false n hn),
      rfl⟩
  · rw [if_neg hp] at hmm
    split at hmm
    · rename_i hlex
      have hmm' : mm = toSegs (resolve root dp) ++ [pat] := by simpa using hmm
      subst hmm'
      refine ⟨pat, ?_, rfl⟩
      rw [FS.lexistsAt] at hlex
      rw [resolveDots_eq_self] at hlex
      · rw [FS.existsAt] at hlex
        simp only [Bool.or_eq_true] at hlex
        rcases hlex with he | hs
        · exfalso
          simp at he
        · exact hs
      · intro s hs
        rcases List.mem_append.mp hs with h1 | h2
        · exact resolve_segs_clean root dp hroot s h1
        · have hsp : s = pat := by simpa using h2
          subst hsp
          exact ⟨hpatne, hdot, hddot⟩
    · simp at hmm

/-- Witness for C6 (amended) at the spec's own example: pattern `*.txt`
in directory `d` containing `a.txt`, `b.log` and `sub/c.txt`. -/
theorem c6_search_files_matches_witness :
    ∃ rels : List String,
      dispatch sbRoot "search_files"
          [("directory_path", JVal.str "d"), ("pattern", JVal.str "*.txt")] fsSearch =
        (fsSearch, Except.ok (JOut.obj
          [("matches", JOut.arr (rels.map JOut.str)),
           ("pattern", JOut.str "*.txt"),
           ("directory_path", JOut.str "d")])) ∧
      ∀ m ∈ rels, ∃ n,
        (fsSearch.lookup (toSegs (resolve sbRoot "d") ++ [n])).isSome ∧
        m = relpathSegs (toSegs (resolve sbRoot "d") ++ [n]) (toSegs sbRoot) := by
  exact c6_search_files_matches sbRoot "d" "*.txt"
    [("directory_path", JVal.str "d"), ("pattern", JVal.str "*.txt")] fsSearch
    rfl rfl (by decide) rfl (by decide) (by decide) (by decide) (by decide)
    (by decide) (by decide)
